import Mathlib

set_option autoImplicit false

/-!
Verification of the replicated metadata state machine (raft-store,
state-machine V003): applier, upsert/transaction semantics, expiration
sweep, snapshot export/import and snapshot installation.

The embedding follows the Rust sources `applier_v003.rs`, `sm_v003.rs`,
`importer.rs` and `snapshot_view_v003.rs`.  The leveled-store module
(`LevelData`, `LeveledMap`, `Marked`, `MapApi`) and a few common types
(`MatchSeq`, `SeqV`, `ExpireKey`) are not part of the provided sources;
those definitions are modelled from the specification (sections 3, 4.1
and 4.3) and from the in-tree tests, and are marked as such.  The
leveled stack is modelled by its merged view: a single level, which is
the state produced by snapshot installation and by compaction, and on
which every operation of the claims acts.

Ordered maps are modelled as association lists sorted strictly by key,
mirroring the BTreeMap used by the sources (ascending range order).
-/

namespace MetaSM

/-! ### Sorted association-list maps -/

section AssocMap

variable {K : Type} {A : Type} [DecidableEq K]

/-- Lookup in an association list (models BTreeMap.get). -/
def sGet (k : K) : List (K × A) → Option A
  | [] => none
  | p :: t => if p.1 = k then some p.2 else sGet k t

/-- Ordered insert-or-replace (models BTreeMap.insert), keeping the list
sorted w.r.t. the strict order `lt`. -/
def sSet (lt : K → K → Bool) (k : K) (v : A) : List (K × A) → List (K × A)
  | [] => [(k, v)]
  | p :: t =>
    if lt k p.1 then (k, v) :: p :: t
    else if p.1 = k then (k, v) :: t
    else p :: sSet lt k v t

/-- The facts about a boolean comparator that make it a strict total order. -/
def StrictOrd (lt : K → K → Bool) : Prop :=
  (∀ a, lt a a = false) ∧
  (∀ a b c, lt a b = true → lt b c = true → lt a c = true) ∧
  (∀ a b, a ≠ b → lt a b = true ∨ lt b a = true)

end AssocMap

/-! ### Scalar orders used for the map keys -/

/-- Key bytes / value bytes: a Rust Vec of u8 is a list of naturals here. -/
abbrev Bytes := List Nat

/-- A string: UTF-8 keys are byte strings, ordered byte-wise in Rust. -/
abbrev Str := List Nat

/-- Lexicographic strict order on byte vectors, as Rust Vec ordering. -/
def bytesLt : Bytes → Bytes → Bool
  | [], [] => false
  | [], _ :: _ => true
  | _ :: _, [] => false
  | a :: xs, b :: ys => if a < b then true else if b < a then false else bytesLt xs ys

/-- Boolean strict order on strings (byte-wise lexicographic, as Rust str). -/
def strLt (a b : Str) : Bool := bytesLt a b

/-- Boolean strict order on naturals. -/
def natLt (a b : Nat) : Bool := decide (a < b)

/-! ### Core data model -/

/-- Raft log id (openraft: ordered lexicographically by term, node id, index). -/
structure LogId where
  term : Nat
  node_id : Nat
  index : Nat
deriving DecidableEq, Repr

/-- Total (non-strict) order on log ids, lexicographic as the derived Rust Ord. -/
def LogId.ble (a b : LogId) : Bool :=
  decide (a.term < b.term ∨ (a.term = b.term ∧
    (a.node_id < b.node_id ∨ (a.node_id = b.node_id ∧ a.index ≤ b.index))))

/-- Rust derived order on Option: None is the least element. -/
def optionLogIdLe : Option LogId → Option LogId → Bool
  | none, _ => true
  | some _, none => false
  | some a, some b => LogId.ble a b

/-- Cluster node descriptor; its payload is opaque for the state machine. -/
abbrev Node := Str

abbrev NodeId := Nat

/-- Raft membership config; opaque payload for the state machine. -/
abbrev Membership := Nat

/-- Membership stamped with the log id that installed it. -/
structure StoredMembership where
  log_id : Option LogId
  membership : Membership
deriving DecidableEq, Repr

/-- Modelled from the spec (section 3): value metadata carrying the optional
expiration time.  The source stores seconds in KVMeta and converts to
milliseconds in the (missing) leveled-store module; here a single
millisecond unit is used throughout, as the spec does. -/
structure KVMeta where
  expire_at_ms : Option Nat
deriving DecidableEq, Repr

/-- Modelled from the spec (section 3): the internal leveled-store value,
either Normal or a tombstone (missing module marked.rs). -/
inductive Marked (V : Type) where
  | normal (internal_seq : Nat) (value : V) (meta : Option KVMeta)
  | tombStone (internal_seq : Nat)
deriving DecidableEq, Repr

/-- A versioned value: seq number, optional meta and payload bytes. -/
structure SeqV (V : Type) where
  seq : Nat
  meta : Option KVMeta
  data : V
deriving DecidableEq, Repr

/-- Seq of a marked value: tombstones answer 0 (absent is seq 0). -/
def Marked.seq {V : Type} : Marked V → Nat
  | .normal s _ _ => s
  | .tombStone _ => 0

/-- Internal seq of a marked value (tombstones keep theirs). -/
def Marked.internal_seq {V : Type} : Marked V → Nat
  | .normal s _ _ => s
  | .tombStone s => s

/-- Expiration time of a marked value, if any. -/
def Marked.expire_at_ms {V : Type} : Marked V → Option Nat
  | .normal _ _ (some m) => m.expire_at_ms
  | .normal _ _ none => none
  | .tombStone _ => none

/-- Unpack a marked value: Normal yields its payload, tombstone nothing. -/
def Marked.unpack {V : Type} : Marked V → Option (V × Option KVMeta)
  | .normal _ v m => some (v, m)
  | .tombStone _ => none

/-- Whether a marked value is a tombstone. -/
def Marked.is_tomb_stone {V : Type} : Marked V → Bool
  | .normal _ _ _ => false
  | .tombStone _ => true

/-- Conversion Marked -> Option SeqV: a tombstone reads as "not found". -/
def Marked.to_seqv {V : Type} : Marked V → Option (SeqV V)
  | .normal s v m => some ⟨s, m, v⟩
  | .tombStone _ => none

/-- Secondary-index key: expiry time in ms, then seq. -/
structure ExpireKey where
  time_ms : Nat
  seq : Nat
deriving DecidableEq, Repr

/-- Strict lexicographic order on expire keys ((time_ms, seq), as Rust Ord). -/
def ExpireKey.blt (a b : ExpireKey) : Bool :=
  decide (a.time_ms < b.time_ms ∨ (a.time_ms = b.time_ms ∧ a.seq < b.seq))

/-- Non-strict order on expire keys. -/
def ExpireKey.ble (a b : ExpireKey) : Bool := !ExpireKey.blt b a

/-- Modelled from the spec (boundary behaviors): a record with
expire time equal to the log time is expired (inclusive). -/
def ExpireKey.is_expired (k : ExpireKey) (time_ms : Nat) : Bool :=
  decide (k.time_ms ≤ time_ms)

/-- Value of an entry of the expiration index in a snapshot stream. -/
structure ExpireValue where
  seq : Nat
  key : Str
deriving DecidableEq, Repr

/-! ### Level data (modelled from the spec, leveled_store module missing) -/

/-- Per-level system data (spec section 3). -/
structure SysData where
  seq : Nat
  last_applied : Option LogId
  last_membership : StoredMembership
  nodes : List (NodeId × Node)
deriving DecidableEq, Repr

/-- One level of data: primary kv index and secondary expiration index,
plus sys data.  The merged view of the leveled stack is modelled by a
single level. -/
structure LevelData where
  sys : SysData
  kv : List (Str × Marked Bytes)
  expire : List (ExpireKey × Marked Str)
deriving DecidableEq, Repr

def LevelData.curr_seq (d : LevelData) : Nat := d.sys.seq

/-- Merged-view get on the primary index; absent reads as an empty tombstone. -/
def LevelData.kvGet (d : LevelData) (key : Str) : Marked Bytes :=
  (sGet key d.kv).getD (.tombStone 0)

/-- Merged-view get on the expiration index. -/
def LevelData.expGet (d : LevelData) (key : ExpireKey) : Marked Str :=
  (sGet key d.expire).getD (.tombStone 0)

/-- Modelled from the spec (section 4.1, missing MapApi Str set):
a Normal write takes a fresh seq from the sys-data counter; a delete
writes a tombstone that also consumes a fresh seq.  Returns the state
together with the previous and the new marked value. -/
def LevelData.kvSet (d : LevelData) (key : Str)
    (value : Option (Bytes × Option KVMeta)) :
    LevelData × Marked Bytes × Marked Bytes :=
  let prev := d.kvGet key
  match value with
  | some (v, m) =>
    let s := d.sys.seq + 1
    let marked : Marked Bytes := .normal s v m
    ({ d with sys := { d.sys with seq := s }, kv := sSet strLt key marked d.kv },
      prev, marked)
  | none =>
    let s := d.sys.seq + 1
    let marked : Marked Bytes := .tombStone s
    ({ d with sys := { d.sys with seq := s }, kv := sSet strLt key marked d.kv },
      prev, marked)

/-- Modelled from the spec (section 4.1, missing update_meta): if the key
resolves to a Normal value, write a new Normal entry with the same bytes
and a fresh seq; otherwise a no-op with new = prev. -/
def LevelData.update_meta (d : LevelData) (key : Str) (meta : Option KVMeta) :
    LevelData × Marked Bytes × Marked Bytes :=
  match d.kvGet key with
  | .normal s v m =>
    let s' := d.sys.seq + 1
    let marked : Marked Bytes := .normal s' v meta
    ({ d with sys := { d.sys with seq := s' }, kv := sSet strLt key marked d.kv },
      .normal s v m, marked)
  | .tombStone s => (d, .tombStone s, .tombStone s)

/-- Modelled from the spec (section 3, missing MapApi ExpireKey set) and
from the in-tree snapshot tests: writes to the expiration index do not
consume a seq; the marked value records the current seq counter. -/
def LevelData.expSet (d : LevelData) (key : ExpireKey)
    (value : Option (Str × Option KVMeta)) : LevelData :=
  match value with
  | some (v, m) => { d with expire := sSet ExpireKey.blt key (.normal d.sys.seq v m) d.expire }
  | none => { d with expire := sSet ExpireKey.blt key (.tombStone d.sys.seq) d.expire }

/-! ### Upsert request types (modelled from the spec, common_meta_types missing) -/

/-- Modelled from the spec (section 4.3): seq matching condition. -/
inductive MatchSeq where
  | any
  | ge (n : Nat)
  | exact (n : Nat)
deriving DecidableEq, Repr

/-- Modelled from the spec (section 4.3): Any always matches, Exact n
requires equality, GE n requires at least n; compared against the
previous seq (absent is seq 0). -/
def MatchSeq.match_seq : MatchSeq → Nat → Bool
  | .any, _ => true
  | .ge n, s => decide (n ≤ s)
  | .exact n, s => decide (s = n)

/-- Modelled from the spec (section 4.3): the operation of an upsert. -/
inductive Operation where
  | update (v : Bytes)
  | delete
  | asIs
deriving DecidableEq, Repr

/-- Modelled from the spec (section 4.3): an upsert-kv request. -/
structure UpsertKV where
  key : Str
  seq : MatchSeq
  value : Operation
  value_meta : Option KVMeta
deriving DecidableEq, Repr

/-- The expire time the new record would carry (from the request meta). -/
def UpsertKV.get_expire_at_ms (u : UpsertKV) : Option Nat :=
  u.value_meta.bind (fun m => m.expire_at_ms)

/-- UpsertKV::delete -/
def UpsertKV.deleteReq (key : Str) : UpsertKV :=
  ⟨key, .any, .delete, none⟩

/-- UpsertKV::update with meta. -/
def UpsertKV.updateReq (key : Str) (v : Bytes) (meta : Option KVMeta) : UpsertKV :=
  ⟨key, .any, .update v, meta⟩

/-! ### The state machine SMV003 (sm_v003.rs) -/

/-- The state machine: the (merged) leveled data and the expire cursor. -/
structure SMV003 where
  level : LevelData
  expire_cursor : ExpireKey
deriving DecidableEq, Repr

def SMV003.curr_seq (sm : SMV003) : Nat := sm.level.curr_seq

def SMV003.last_applied (sm : SMV003) : Option LogId := sm.level.sys.last_applied

/-- SMV003::get_kv: cloned value by key, no expiration check. -/
def SMV003.get_kv (sm : SMV003) (key : Str) : Option (SeqV Bytes) :=
  (sm.level.kvGet key).to_seqv

/-- Seq of an optional SeqV (SeqValue::seq): none is 0. -/
def optSeq {V : Type} : Option (SeqV V) → Nat
  | none => 0
  | some sv => sv.seq

/-- Value of an optional SeqV (SeqValue::value). -/
def optValue {V : Type} : Option (SeqV V) → Option V
  | none => none
  | some sv => some sv.data

/-- SMV003::upsert_kv_primary_index (sm_v003.rs): check MatchSeq against the
previous entry, perform the operation, and if the new entry has already
expired w.r.t. the expire cursor, immediately write a tombstone on top. -/
def SMV003.upsert_kv_primary_index (sm : SMV003) (u : UpsertKV) :
    SMV003 × Marked Bytes × Marked Bytes :=
  let prev := sm.level.kvGet u.key
  if u.seq.match_seq prev.seq = false then (sm, prev, prev)
  else
    let (d, prev2, result) :=
      match u.value with
      | .update v => sm.level.kvSet u.key (some (v, u.value_meta))
      | .delete => sm.level.kvSet u.key none
      | .asIs => sm.level.update_meta u.key u.value_meta
    -- expire_ms < cursor (a missing expire time reads as u64::MAX, never less)
    let expired :=
      match u.get_expire_at_ms with
      | some e => decide (e < sm.expire_cursor.time_ms)
      | none => false
    if expired then
      let (d2, _p, r) := d.kvSet u.key none
      ({ sm with level := d2 }, prev2, r)
    else
      ({ sm with level := d }, prev2, result)

/-- SMV003::update_expire_index (sm_v003.rs): remove the expiration-index
entry of the removed record, insert one for the added record. -/
def SMV003.update_expire_index (sm : SMV003) (key : Str)
    (removed added : Marked Bytes) : SMV003 :=
  if removed = added then sm
  else
    let sm1 :=
      match removed.expire_at_ms with
      | some e => { sm with level := sm.level.expSet ⟨e, removed.internal_seq⟩ none }
      | none => sm
    match added.expire_at_ms with
    | some e =>
      { sm1 with level := sm1.level.expSet ⟨e, added.internal_seq⟩ (some (key, none)) }
    | none => sm1

/-- SMV003::upsert_kv (sm_v003.rs): primary index, then expiration index;
returns the previous and resulting entries as optional SeqV. -/
def SMV003.upsert_kv (sm : SMV003) (u : UpsertKV) :
    SMV003 × Option (SeqV Bytes) × Option (SeqV Bytes) :=
  let (sm1, prev, result) := sm.upsert_kv_primary_index u
  let sm2 := sm1.update_expire_index u.key prev result
  (sm2, prev.to_seqv, result.to_seqv)

/-- SMV003::prefix_list_kv (sm_v003.rs): range from the given string, keep
keys extending it, return live (non-tombstone) entries in key order. -/
def SMV003.pfxListKv (sm : SMV003) (p : Str) : List (Str × SeqV Bytes) :=
  (((sm.level.kv.filter (fun e => !strLt e.1 p)).takeWhile
      (fun e => List.isPrefixOf p e.1)).filterMap
    (fun e => (e.2.to_seqv).map (fun sv => (e.1, sv))))

/-- SMV003::update_expire_cursor (sm_v003.rs): never move the cursor
backwards; otherwise set it to (log_time_ms, 0). -/
def SMV003.update_expire_cursor (sm : SMV003) (log_time_ms : Nat) : SMV003 :=
  if log_time_ms < sm.expire_cursor.time_ms then sm
  else { sm with expire_cursor := ⟨log_time_ms, 0⟩ }

/-- SMV003::list_expire_index (sm_v003.rs): the live (non-tombstone) records
of the expiration index starting at the expire cursor, in key order. -/
def SMV003.list_expire_index (sm : SMV003) : List (ExpireKey × Str) :=
  (sm.level.expire.filter (fun e => ExpireKey.ble sm.expire_cursor e.1)).filterMap
    (fun e => (e.2.unpack).map (fun vm => (e.1, vm.1)))

/-- SMV003::replace (sm_v003.rs): replace all data with the given level;
asserts the new last_applied is not older; resets the expire cursor.
The assertion failure is modelled as none. -/
def SMV003.replace (sm : SMV003) (level : LevelData) : Option SMV003 :=
  if optionLogIdLe sm.level.sys.last_applied level.sys.last_applied then
    some { level := level, expire_cursor := ⟨0, 0⟩ }
  else
    none

/-- SMV003::install_snapshot (sm_v003.rs), after the import has produced a
level: discard the snapshot if it is not newer while the current
last_applied is present, else replace the whole state. -/
def SMV003.install_snapshot (sm : SMV003) (level_data : LevelData) : Option SMV003 :=
  if optionLogIdLe level_data.sys.last_applied sm.level.sys.last_applied
      && (sm.level.sys.last_applied).isSome then
    some sm
  else
    sm.replace level_data

/-! ### Transaction types (protobuf txn messages) -/

/-- The six comparators of a transaction condition (pb ConditionResult). -/
inductive ConditionResult where
  | eq
  | gt
  | ge
  | lt
  | le
  | ne
deriving DecidableEq, Repr

/-- Target of a condition: the seq or the value of the live entry. -/
inductive CondTarget where
  | seqTarget (n : Nat)
  | valueTarget (v : Bytes)
deriving DecidableEq, Repr

/-- A transaction condition on one key. -/
structure TxnCondition where
  key : Str
  expected : ConditionResult
  target : Option CondTarget
deriving DecidableEq, Repr

/-- A transaction operation (pb TxnOp request payloads). -/
inductive TxnOpReq where
  | get (key : Str)
  | put (key : Str) (value : Bytes) (expire_at : Option Nat) (prev_value : Bool)
  | delete (key : Str) (match_seq : Option Nat) (prev_value : Bool)
  | deleteByPfx (p : Str)
deriving DecidableEq, Repr

/-- A transaction op whose request may be absent (pb optional field). -/
structure TxnOp where
  request : Option TxnOpReq
deriving DecidableEq, Repr

/-- The transaction request: conditions plus the two branches. -/
structure TxnRequest where
  condition : List TxnCondition
  if_then : List TxnOp
  else_then : List TxnOp
deriving DecidableEq, Repr

/-- pb::SeqV: only seq and data survive the protobuf conversion. -/
structure PbSeqV where
  seq : Nat
  data : Bytes
deriving DecidableEq, Repr

/-- Per-op transaction responses. -/
inductive TxnOpResponse where
  | getResp (key : Str) (value : Option PbSeqV)
  | putResp (key : Str) (prev_value : Option PbSeqV)
  | deleteResp (key : Str) (success : Bool) (prev_value : Option PbSeqV)
  | deleteByPfxResp (p : Str) (count : Nat)
deriving DecidableEq, Repr

/-- The reply of a transaction. -/
structure TxnReply where
  success : Bool
  error : Str
  responses : List TxnOpResponse
deriving DecidableEq, Repr

/-- ApplierV003::into_pb_seq_v: drops the meta. -/
def intoPbSeqV (sv : SeqV Bytes) : PbSeqV := ⟨sv.seq, sv.data⟩

/-! ### The applier (applier_v003.rs) -/

/-- A change event pushed to the subscriber. -/
structure Change where
  key : Str
  prev : Option (SeqV Bytes)
  result : Option (SeqV Bytes)
deriving DecidableEq, Repr

/-- The applier: the state machine plus the queued change events. -/
structure Applier where
  sm : SMV003
  changes : List Change
deriving DecidableEq, Repr

/-- ApplierV003::push_change: does nothing when prev = result. -/
def Applier.push_change (a : Applier) (key : Str)
    (prev result : Option (SeqV Bytes)) : Applier :=
  if prev = result then a
  else { a with changes := a.changes ++ [⟨key, prev, result⟩] }

/-- ApplierV003::upsert_kv: the state-machine upsert followed by a change event. -/
def Applier.upsert_kv (a : Applier) (u : UpsertKV) :
    Applier × Option (SeqV Bytes) × Option (SeqV Bytes) :=
  let (sm2, prev, result) := a.sm.upsert_kv u
  let a2 := Applier.push_change { a with sm := sm2 } u.key prev result
  (a2, prev, result)

/-- ApplierV003::eval_seq_condition. -/
def eval_seq_condition (left : Nat) (op : ConditionResult) (right : Nat) : Bool :=
  match op with
  | .eq => decide (left = right)
  | .gt => decide (left > right)
  | .lt => decide (left < right)
  | .ne => decide (left ≠ right)
  | .ge => decide (left ≥ right)
  | .le => decide (left ≤ right)

/-- ApplierV003::eval_value_condition (Vec of u8 ordering is lexicographic). -/
def eval_value_condition (left : Bytes) (op : ConditionResult) (right : Bytes) : Bool :=
  match op with
  | .eq => decide (left = right)
  | .gt => bytesLt right left
  | .lt => bytesLt left right
  | .ne => decide (left ≠ right)
  | .ge => !bytesLt left right
  | .le => !bytesLt right left

/-- ApplierV003::eval_one_condition: compares the live entry's seq or value;
an absent target yields false; a value comparison on an absent key is false. -/
def Applier.eval_one_condition (a : Applier) (cond : TxnCondition) : Bool :=
  let seqv := a.sm.get_kv cond.key
  match cond.target with
  | none => false
  | some (.seqTarget right) => eval_seq_condition (optSeq seqv) cond.expected right
  | some (.valueTarget right) =>
    match optValue seqv with
    | some v => eval_value_condition v cond.expected right
    | none => false

/-- ApplierV003::eval_txn_conditions: sequential short-circuit AND. -/
def Applier.eval_txn_conditions (a : Applier) : List TxnCondition → Bool
  | [] => true
  | cond :: t =>
    if a.eval_one_condition cond then a.eval_txn_conditions t else false

/-- ApplierV003::txn_execute_get. -/
def Applier.txn_execute_get (a : Applier) (key : Str)
    (resps : List TxnOpResponse) : Applier × List TxnOpResponse :=
  let sv := a.sm.get_kv key
  (a, resps ++ [.getResp key (sv.map intoPbSeqV)])

/-- ApplierV003::txn_execute_put: an UpsertKV::update carrying the expire
time as meta; answers the previous value when requested. -/
def Applier.txn_execute_put (a : Applier) (key : Str) (value : Bytes)
    (expire_at : Option Nat) (prev_value : Bool)
    (resps : List TxnOpResponse) : Applier × List TxnOpResponse :=
  let u : UpsertKV := UpsertKV.updateReq key value (some ⟨expire_at⟩)
  let (a2, prev, _result) := a.upsert_kv u
  (a2, resps ++ [.putResp key (if prev_value then prev.map intoPbSeqV else none)])

/-- ApplierV003::txn_execute_delete: an UpsertKV::delete, gated by
MatchSeq::Exact when match_seq is given; success means a live value was
replaced by a tombstone. -/
def Applier.txn_execute_delete (a : Applier) (key : Str)
    (match_seq : Option Nat) (prev_value : Bool)
    (resps : List TxnOpResponse) : Applier × List TxnOpResponse :=
  let u : UpsertKV :=
    match match_seq with
    | some s => { UpsertKV.deleteReq key with seq := .exact s }
    | none => UpsertKV.deleteReq key
  let (a2, prev, result) := a.upsert_kv u
  let is_deleted := prev.isSome && result.isNone
  (a2, resps ++ [.deleteResp key is_deleted (if prev_value then prev.map intoPbSeqV else none)])

/-- The per-key deletion loop of txn_execute_delete_by_prefix: the applier
upsert (which already pushes a change event) followed by a second explicit
push_change with the same prev and result. -/
def Applier.txnDeleteByPfxGo (a : Applier) : List (Str × SeqV Bytes) → Applier
  | [] => a
  | (key, _sv) :: t =>
    let (a2, prev, res) := a.upsert_kv (UpsertKV.deleteReq key)
    let a3 := a2.push_change key prev res
    a3.txnDeleteByPfxGo t

/-- ApplierV003::txn_execute_delete_by_prefix: scan the keys extending the
string, delete each, answer the number of scanned keys. -/
def Applier.txnExecuteDeleteByPfx (a : Applier) (p : Str)
    (resps : List TxnOpResponse) : Applier × List TxnOpResponse :=
  let kvs := a.sm.pfxListKv p
  let count := kvs.length
  let a2 := a.txnDeleteByPfxGo kvs
  (a2, resps ++ [.deleteByPfxResp p count])

/-- ApplierV003::txn_execute_operation: dispatch one op; an absent request
does nothing. -/
def Applier.txn_execute_operation (a : Applier) (op : TxnOp)
    (resps : List TxnOpResponse) : Applier × List TxnOpResponse :=
  match op.request with
  | some (.get key) => a.txn_execute_get key resps
  | some (.put key value expire_at prev_value) =>
    a.txn_execute_put key value expire_at prev_value resps
  | some (.delete key match_seq prev_value) =>
    a.txn_execute_delete key match_seq prev_value resps
  | some (.deleteByPfx p) => a.txnExecuteDeleteByPfx p resps
  | none => (a, resps)

/-- The op loop of ApplierV003::apply_txn. -/
def Applier.txn_run_ops (a : Applier) (ops : List TxnOp)
    (resps : List TxnOpResponse) : Applier × List TxnOpResponse :=
  match ops with
  | [] => (a, resps)
  | op :: t =>
    let (a2, resps2) := a.txn_execute_operation op resps
    a2.txn_run_ops t resps2

/-- ApplierV003::apply_txn: evaluate the conditions, run the chosen branch,
report success. -/
def Applier.apply_txn (a : Applier) (req : TxnRequest) : Applier × TxnReply :=
  let success := a.eval_txn_conditions req.condition
  let ops := if success then req.if_then else req.else_then
  let (a2, resps) := a.txn_run_ops ops []
  (a2, ⟨success, [], resps⟩)

/-! ### Expiration sweep (applier_v003.rs clean_expired_kvs) -/

/-- The deletion loop of clean_expired_kvs over the collected expired
records: look up the primary entry, assert the seq matches (modelled as
none on failure), delete, push one change event.  An absent primary entry
is the unreachable branch, also none. -/
def Applier.cleanGo (a : Applier) : List (ExpireKey × Str) → Option Applier
  | [] => some a
  | (expire_key, key) :: t =>
    match a.sm.get_kv key with
    | some seq_v =>
      if expire_key.seq = seq_v.seq then
        let (sm2, _prev, _res) := a.sm.upsert_kv (UpsertKV.deleteReq key)
        let a2 := Applier.push_change { a with sm := sm2 } key (some seq_v) none
        a2.cleanGo t
      else
        none
    | none => none

/-- ApplierV003::clean_expired_kvs: nothing for log time 0; otherwise collect
the expired records from the cursor (stopping at the first non-expired),
delete each, and advance the cursor. -/
def Applier.clean_expired_kvs (a : Applier) (log_time_ms : Nat) : Option Applier :=
  if log_time_ms = 0 then some a
  else
    let to_clean :=
      (a.sm.list_expire_index).takeWhile (fun e => e.1.is_expired log_time_ms)
    (a.cleanGo to_clean).map
      (fun a2 => { a2 with sm := a2.sm.update_expire_cursor log_time_ms })

/-! ### Log entries and apply (applier_v003.rs apply) -/

/-- A state-machine command carried by a Normal log entry. -/
inductive Cmd where
  | addNode (node_id : NodeId) (node : Node) (overriding : Bool)
  | removeNode (node_id : NodeId)
  | upsertKV (u : UpsertKV)
  | transaction (t : TxnRequest)
deriving DecidableEq, Repr

/-- A raft log entry payload; a Normal entry carries the proposing time. -/
inductive EntryPayload where
  | blank
  | membership (m : Membership)
  | normal (time_ms : Option Nat) (cmd : Cmd)
deriving DecidableEq, Repr

/-- A committed raft log entry. -/
structure Entry where
  log_id : LogId
  payload : EntryPayload
deriving DecidableEq, Repr

/-- The result of applying one entry. -/
inductive AppliedState where
  | noneSt
  | changeSt (prev result : Option (SeqV Bytes))
  | nodeSt (prev result : Option Node)
  | txnReplySt (r : TxnReply)
deriving DecidableEq, Repr

/-- ApplierV003::get_log_time: only a Normal entry has a time; a missing
time reads as 0. -/
def get_log_time (e : Entry) : Nat :=
  match e.payload with
  | .normal (some ms) _ => ms
  | .normal none _ => 0
  | _ => 0

/-- ApplierV003::apply_add_node: insert only when absent or overriding. -/
def Applier.apply_add_node (a : Applier) (node_id : NodeId) (node : Node)
    (overriding : Bool) : Applier × AppliedState :=
  let prev := sGet node_id a.sm.level.sys.nodes
  match prev with
  | none =>
    ({ a with sm := { a.sm with level := { a.sm.level with
        sys := { a.sm.level.sys with
          nodes := sSet natLt node_id node a.sm.level.sys.nodes } } } },
      .nodeSt none (some node))
  | some p =>
    if overriding then
      ({ a with sm := { a.sm with level := { a.sm.level with
          sys := { a.sm.level.sys with
            nodes := sSet natLt node_id node a.sm.level.sys.nodes } } } },
        .nodeSt (some p) (some node))
    else
      (a, .nodeSt (some p) (some p))

/-- Remove a key from an association list (BTreeMap.remove). -/
def sRemove {K : Type} {A : Type} [DecidableEq K] (k : K) :
    List (K × A) → List (K × A)
  | [] => []
  | p :: t => if p.1 = k then t else p :: sRemove k t

/-- ApplierV003::apply_remove_node. -/
def Applier.apply_remove_node (a : Applier) (node_id : NodeId) :
    Applier × AppliedState :=
  let prev := sGet node_id a.sm.level.sys.nodes
  ({ a with sm := { a.sm with level := { a.sm.level with
      sys := { a.sm.level.sys with
        nodes := sRemove node_id a.sm.level.sys.nodes } } } },
    .nodeSt prev none)

/-- ApplierV003::apply_upsert_kv. -/
def Applier.apply_upsert_kv (a : Applier) (u : UpsertKV) : Applier × AppliedState :=
  let (a2, prev, result) := a.upsert_kv u
  (a2, .changeSt prev result)

/-- ApplierV003::apply_cmd: dispatch a command. -/
def Applier.apply_cmd (a : Applier) (cmd : Cmd) : Applier × AppliedState :=
  match cmd with
  | .addNode node_id node overriding => a.apply_add_node node_id node overriding
  | .removeNode node_id => a.apply_remove_node node_id
  | .upsertKV u => a.apply_upsert_kv u
  | .transaction t =>
    let (a2, reply) := a.apply_txn t
    (a2, .txnReplySt reply)

/-- Set last_applied on the state machine (the writable sys data). -/
def SMV003.set_last_applied (sm : SMV003) (l : Option LogId) : SMV003 :=
  { sm with level := { sm.level with sys := { sm.level.sys with last_applied := l } } }

/-- Set last_membership on the state machine. -/
def SMV003.set_last_membership (sm : SMV003) (m : StoredMembership) : SMV003 :=
  { sm with level := { sm.level with sys := { sm.level.sys with last_membership := m } } }

/-- ApplierV003::apply: sweep the expired records, unconditionally set
last_applied to the entry's log id, dispatch on the payload.  The queued
change events stay in the applier (they are drained to the subscriber). -/
def Applier.apply (a : Applier) (e : Entry) : Option (Applier × AppliedState) :=
  (a.clean_expired_kvs (get_log_time e)).map (fun a1 =>
    let a2 := { a1 with sm := a1.sm.set_last_applied (some e.log_id) }
    match e.payload with
    | .blank => (a2, .noneSt)
    | .membership m =>
      ({ a2 with sm := a2.sm.set_last_membership ⟨some e.log_id, m⟩ }, .noneSt)
    | .normal _ cmd => a2.apply_cmd cmd)

/-! ### Snapshot entry stream, importer (importer.rs) and export
(snapshot_view_v003.rs) -/

/-- An entry of the snapshot line stream (key_spaces RaftStoreEntry).  The
non-state-machine variants carry no payload here since the importer
ignores them; StateMachineMeta is split by its key. -/
inductive RaftStoreEntry where
  | dataHeader
  | logs
  | logMeta
  | raftStateKV
  | clientLastResps
  | nodes (key : NodeId) (value : Node)
  | smLastApplied (value : LogId)
  | smInitialized
  | smLastMembership (value : StoredMembership)
  | expire (key : ExpireKey) (value : ExpireValue)
  | genericKV (key : Str) (value : SeqV Bytes)
  | sequences (value : Nat)
deriving DecidableEq, Repr

/-- The importer: a fresh level plus the kv and expire maps under
construction and the greatest seq observed. -/
structure Importer where
  level_data : LevelData
  kv : List (Str × Marked Bytes)
  expire : List (ExpireKey × Marked Str)
  greatest_seq : Nat
deriving DecidableEq, Repr

/-- The default (empty) importer state. -/
def Importer.default : Importer :=
  ⟨⟨⟨0, none, ⟨none, 0⟩, []⟩, [], []⟩, [], [], 0⟩

/-- Importer::import, one entry: raft-log entries are ignored, an Expire
value with seq 0 is bumped to 1 (legacy), ClientLastResps is fatal
(modelled as none). -/
def Importer.importEntry (i : Importer) (e : RaftStoreEntry) : Option Importer :=
  match e with
  | .dataHeader => some i
  | .logs => some i
  | .logMeta => some i
  | .raftStateKV => some i
  | .clientLastResps => none
  | .nodes key value =>
    some { i with level_data := { i.level_data with
      sys := { i.level_data.sys with
        nodes := sSet natLt key value i.level_data.sys.nodes } } }
  | .smLastApplied value =>
    some { i with level_data := { i.level_data with
      sys := { i.level_data.sys with last_applied := some value } } }
  | .smInitialized => some i
  | .smLastMembership value =>
    some { i with level_data := { i.level_data with
      sys := { i.level_data.sys with last_membership := value } } }
  | .expire key value =>
    let v : ExpireValue := if value.seq = 0 then { value with seq := 1 } else value
    some { i with
      greatest_seq := max i.greatest_seq v.seq,
      expire := sSet ExpireKey.blt key (.normal v.seq v.key none) i.expire }
  | .genericKV key value =>
    some { i with
      greatest_seq := max i.greatest_seq value.seq,
      kv := sSet strLt key (.normal value.seq value.data value.meta) i.kv }
  | .sequences value =>
    some { i with level_data := { i.level_data with
      sys := { i.level_data.sys with seq := value } } }

/-- Fold Importer::import over a stream of entries. -/
def Importer.importAll (i : Importer) : List RaftStoreEntry → Option Importer
  | [] => some i
  | e :: t => (i.importEntry e).bind (fun i2 => i2.importAll t)

/-- Importer::commit: install the collected maps and assert that the
greatest observed seq does not exceed the seq counter (none on failure). -/
def Importer.commit (i : Importer) : Option LevelData :=
  let d := { i.level_data with kv := i.kv, expire := i.expire }
  if i.greatest_seq ≤ d.curr_seq then some d else none

/-- Import a whole stream into an empty state and commit it. -/
def importCommit (es : List RaftStoreEntry) : Option LevelData :=
  (Importer.default.importAll es).bind Importer.commit

/-- SnapshotViewV003::export on compacted data: header, last_applied when
present, last_membership, the seq counter, the nodes, the live kv pairs in
key order, the live expire pairs in key order. -/
def LevelData.export (d : LevelData) : List RaftStoreEntry :=
  [RaftStoreEntry.dataHeader]
  ++ (match d.sys.last_applied with
      | some l => [RaftStoreEntry.smLastApplied l]
      | none => [])
  ++ [RaftStoreEntry.smLastMembership d.sys.last_membership]
  ++ [RaftStoreEntry.sequences d.sys.seq]
  ++ d.sys.nodes.map (fun p => RaftStoreEntry.nodes p.1 p.2)
  ++ d.kv.filterMap (fun p =>
      match p.2 with
      | .normal s v m => some (RaftStoreEntry.genericKV p.1 ⟨s, m, v⟩)
      | .tombStone _ => none)
  ++ d.expire.filterMap (fun p =>
      match p.2 with
      | .normal s v _ => some (RaftStoreEntry.expire p.1 ⟨s, v⟩)
      | .tombStone _ => none)

/-- The greatest seq observed among the imported GenericKV and Expire
entries of a stream (an Expire seq 0 is imported as 1). -/
def specGreatestSeq (es : List RaftStoreEntry) : Nat :=
  es.foldl (fun g e =>
    match e with
    | .genericKV _ value => max g value.seq
    | .expire _ value => max g (if value.seq = 0 then 1 else value.seq)
    | _ => g) 0

/-! ### Well-formedness of states -/

/-- One expiration-index record is backed by the primary index: a live
record (time, s) mapping to a key requires the primary entry of that key
to be live with seq s and expire time equal to time. -/
def LevelData.expEntryOk (d : LevelData) (p : ExpireKey × Marked Str) : Bool :=
  match p.2 with
  | .tombStone _ => true
  | .normal _ key _ =>
    match d.kvGet key with
    | .normal s _ (some m) =>
      decide (s = p.1.seq) && decide (m.expire_at_ms = some p.1.time_ms)
    | _ => false

/-- A marked value has a positive seq unless it is a tombstone. -/
def Marked.seqPos {V : Type} : Marked V → Bool
  | .normal s _ _ => decide (1 ≤ s)
  | .tombStone _ => true

/-- Well-formed state machine: both indexes sorted, live primary records
have positive seq, and every live expiration record is backed by the
primary index. -/
def SMV003.wf (sm : SMV003) : Prop :=
  List.Pairwise (fun a b => strLt a.1 b.1 = true) sm.level.kv ∧
  List.Pairwise (fun a b => ExpireKey.blt a.1 b.1 = true) sm.level.expire ∧
  (∀ p ∈ sm.level.kv, p.2.seqPos = true) ∧
  (∀ p ∈ sm.level.expire, sm.level.expEntryOk p = true)

/-- An exportable primary record: live and with seq bounded by the counter. -/
def LevelData.kvExportOk (bound : Nat) (p : Str × Marked Bytes) : Bool :=
  match p.2 with
  | .normal s _ _ => decide (s ≤ bound)
  | .tombStone _ => false

/-- An exportable expiration record: live, no meta, positive bounded seq. -/
def LevelData.expExportOk (bound : Nat) (p : ExpireKey × Marked Str) : Bool :=
  match p.2 with
  | .normal s _ none => decide (1 ≤ s) && decide (s ≤ bound)
  | _ => false

/-- Well-formedness of compacted level data for export: all three maps
sorted, tombstone free, expiration values carry no meta, and every seq is
positive (for expire records) and bounded by the counter. -/
def LevelData.exportWf (d : LevelData) : Prop :=
  List.Pairwise (fun a b => strLt a.1 b.1 = true) d.kv ∧
  List.Pairwise (fun a b => ExpireKey.blt a.1 b.1 = true) d.expire ∧
  List.Pairwise (fun a b => natLt a.1 b.1 = true) d.sys.nodes ∧
  (∀ p ∈ d.kv, LevelData.kvExportOk d.sys.seq p = true) ∧
  (∀ p ∈ d.expire, LevelData.expExportOk d.sys.seq p = true)

/-! ### Spec-side description of condition evaluation (section 4.4 step 1),
written from the specification's words, to be compared with the code's
eval functions. -/

/-- Spec-side comparator on naturals. -/
def specCmpNat (op : ConditionResult) (l r : Nat) : Bool :=
  match op with
  | .eq => decide (l = r)
  | .ne => decide (l ≠ r)
  | .lt => decide (l < r)
  | .le => decide (l ≤ r)
  | .gt => decide (r < l)
  | .ge => decide (r ≤ l)

/-- Spec-side comparator on byte strings (lexicographic). -/
def specCmpBytes (op : ConditionResult) (l r : Bytes) : Bool :=
  match op with
  | .eq => decide (l = r)
  | .ne => decide (l ≠ r)
  | .lt => bytesLt l r
  | .le => bytesLt l r || decide (l = r)
  | .gt => bytesLt r l
  | .ge => bytesLt r l || decide (l = r)

/-- Spec-side condition: a Seq target compares the live entry's seq, where
an absent key has seq 0; a Value target comparison on an absent key is
false; an absent target never holds. -/
def specCondition (sm : SMV003) (c : TxnCondition) : Bool :=
  match c.target with
  | none => false
  | some (.seqTarget n) =>
    match sm.get_kv c.key with
    | none => specCmpNat c.expected 0 n
    | some sv => specCmpNat c.expected sv.seq n
  | some (.valueTarget v) =>
    match sm.get_kv c.key with
    | none => false
    | some sv => specCmpBytes c.expected sv.data v

/-! ### Concrete example states used by the witnesses and counterexamples -/

/-- An empty state machine. -/
def sm0 : SMV003 := ⟨⟨⟨0, none, ⟨none, 0⟩, []⟩, [], []⟩, ⟨0, 0⟩⟩

/-- A state with keys a/1, a/2, b/1 (seqs 1, 2, 3). -/
def smAB : SMV003 :=
  ⟨⟨⟨3, none, ⟨none, 0⟩, []⟩,
    [([97, 47, 49], .normal 1 [49] none), ([97, 47, 50], .normal 2 [50] none),
     ([98, 47, 49], .normal 3 [51] none)],
    []⟩, ⟨0, 0⟩⟩

/-- A state with one record b (seq 2, expires at 5000 ms) and its
expiration-index record. -/
def smExp : SMV003 :=
  ⟨⟨⟨2, none, ⟨none, 0⟩, []⟩,
    [([98], .normal 2 [98] (some ⟨some 5000⟩))],
    [(⟨5000, 2⟩, .normal 2 [98] none)]⟩, ⟨0, 0⟩⟩

/-- A state with one record x of seq 5. -/
def smX : SMV003 :=
  ⟨⟨⟨5, none, ⟨none, 0⟩, []⟩, [([120], .normal 5 [65] none)], []⟩, ⟨0, 0⟩⟩

/-- A state whose expire cursor has advanced to time 100. -/
def smCursor : SMV003 :=
  ⟨⟨⟨0, none, ⟨none, 0⟩, []⟩, [], []⟩, ⟨100, 0⟩⟩

/-- A state whose last_applied is (term 1, node 1, index 9). -/
def smApplied9 : SMV003 :=
  ⟨⟨⟨0, some ⟨1, 1, 9⟩, ⟨none, 0⟩, []⟩, [], []⟩, ⟨0, 0⟩⟩

/-- A blank entry with log id (1, 1, 1). -/
def eBlank : Entry := ⟨⟨1, 1, 1⟩, .blank⟩

/-- The result of applying eBlank to the empty state. -/
def applyBlankRes : Applier × AppliedState :=
  (⟨⟨⟨⟨0, some ⟨1, 1, 1⟩, ⟨none, 0⟩, []⟩, [], []⟩, ⟨0, 0⟩⟩, []⟩, .noneSt)

/-- Compacted level data with a node, two keys and one expiration record. -/
def dExport : LevelData :=
  ⟨⟨7, some ⟨2, 2, 4⟩, ⟨some ⟨2, 2, 3⟩, 1⟩, [(3, [110, 51])]⟩,
    [([97], .normal 4 [97] (some ⟨some 15000⟩)), ([98], .normal 7 [98] none)],
    [(⟨15000, 4⟩, .normal 4 [97] none)]⟩

/-! ## Theorems -/

/-! ### Order facts -/

theorem bytesLt_irrefl (a : Bytes) : bytesLt a a = false := by
  induction a with
  | nil => rfl
  | cons x xs ih => simp [bytesLt, ih]

theorem bytesLt_asymm : ∀ (a b : Bytes), bytesLt a b = true → bytesLt b a = false
  | [], [] => by simp [bytesLt]
  | [], _ :: _ => by simp [bytesLt]
  | _ :: _, [] => by simp [bytesLt]
  | a :: xs, b :: ys => by
    simp only [bytesLt]
    intro h
    rcases Nat.lt_trichotomy a b with hab | hab | hab
    · simp [hab, Nat.lt_asymm hab, Nat.lt_irrefl]
    · subst hab
      simp only [Nat.lt_irrefl, if_false] at h ⊢
      exact bytesLt_asymm xs ys h
    · simp [hab, Nat.lt_asymm hab] at h

theorem bytesLt_trans : ∀ (a b c : Bytes),
    bytesLt a b = true → bytesLt b c = true → bytesLt a c = true
  | _, [], [] => by simp [bytesLt]
  | _, _ :: _, [] => by simp [bytesLt]
  | [], [], _ :: _ => by simp [bytesLt]
  | [], _ :: _, _ :: _ => by simp [bytesLt]
  | _ :: _, [], _ :: _ => by simp [bytesLt]
  | a :: xs, b :: ys, c :: zs => by
    simp only [bytesLt]
    intro h1 h2
    rcases Nat.lt_trichotomy a b with hab | hab | hab
    · rcases Nat.lt_trichotomy b c with hbc | hbc | hbc
      · simp [Nat.lt_trans hab hbc]
      · subst hbc; simp [hab]
      · simp [hbc, Nat.lt_asymm hbc] at h2
    · subst hab
      rcases Nat.lt_trichotomy a c with hac | hac | hac
      · simp [hac]
      · subst hac
        simp only [Nat.lt_irrefl, if_false] at h1 h2 ⊢
        exact bytesLt_trans xs ys zs h1 h2
      · simp [hac, Nat.lt_asymm hac] at h2
    · simp [hab, Nat.lt_asymm hab] at h1

theorem bytesLt_total : ∀ (a b : Bytes), a ≠ b →
    bytesLt a b = true ∨ bytesLt b a = true
  | [], [] => by simp
  | [], _ :: _ => by simp [bytesLt]
  | _ :: _, [] => by simp [bytesLt]
  | a :: xs, b :: ys => by
    intro h
    rcases Nat.lt_trichotomy a b with hab | hab | hab
    · left; simp [bytesLt, hab]
    · subst hab
      have hne : xs ≠ ys := by intro he; exact h (by rw [he])
      rcases bytesLt_total xs ys hne with hx | hx
      · left; simp [bytesLt, Nat.lt_irrefl, hx]
      · right; simp [bytesLt, Nat.lt_irrefl, hx]
    · right; simp [bytesLt, hab, Nat.lt_asymm hab]

theorem strictOrd_strLt : StrictOrd strLt :=
  ⟨fun a => bytesLt_irrefl a,
   fun a b c h1 h2 => bytesLt_trans a b c h1 h2,
   fun a b h => bytesLt_total a b h⟩

theorem strictOrd_natLt : StrictOrd natLt := by
  refine ⟨fun a => by simp [natLt], fun a b c h1 h2 => ?_, fun a b h => ?_⟩
  · simp only [natLt, decide_eq_true_eq] at *
    omega
  · simp only [natLt, decide_eq_true_eq]
    omega

theorem strictOrd_ekBlt : StrictOrd ExpireKey.blt := by
  refine ⟨fun a => by simp [ExpireKey.blt], fun a b c h1 h2 => ?_, fun a b h => ?_⟩
  · simp only [ExpireKey.blt, decide_eq_true_eq] at *
    omega
  · simp only [ExpireKey.blt, decide_eq_true_eq]
    have : a.time_ms ≠ b.time_ms ∨ (a.time_ms = b.time_ms ∧ a.seq ≠ b.seq) := by
      by_cases ht : a.time_ms = b.time_ms
      · right
        refine ⟨ht, fun hs => h ?_⟩
        cases a; cases b
        simp_all
      · left; exact ht
    omega

theorem logIdBle_refl (a : LogId) : LogId.ble a a = true := by
  simp [LogId.ble]

theorem logIdBle_totalOrder (a b : LogId) :
    LogId.ble a b = true ∨ LogId.ble b a = true := by
  simp only [LogId.ble, decide_eq_true_eq]
  omega

theorem optionLogIdLe_totalOrder (a b : Option LogId) :
    optionLogIdLe a b = true ∨ optionLogIdLe b a = true := by
  cases a with
  | none => left; rfl
  | some x =>
    cases b with
    | none => right; rfl
    | some y => exact logIdBle_totalOrder x y

/-! ### Association map facts -/

theorem sGet_sSet_self {K A : Type} [DecidableEq K] (lt : K → K → Bool) (k : K) (v : A) :
    ∀ l, sGet k (sSet lt k v l) = some v := by
  intro l
  induction l with
  | nil => simp [sGet, sSet]
  | cons p t ih =>
    simp only [sSet]
    split
    · simp [sGet]
    · split
      · simp [sGet]
      · next h1 h2 => simp [sGet, h2, ih]

theorem sGet_sSet_ne {K A : Type} [DecidableEq K] (lt : K → K → Bool) {k j : K}
    (h : j ≠ k) (v : A) : ∀ l, sGet j (sSet lt k v l) = sGet j l := by
  have hkj : ¬(k = j) := fun he => h he.symm
  intro l
  induction l with
  | nil => simp [sGet, sSet, hkj]
  | cons p t ih =>
    simp only [sSet]
    split
    · simp [sGet, hkj]
    · split
      · next h1 h2 =>
        subst h2
        simp [sGet, hkj]
      · simp [sGet, ih]

theorem mem_sSet {K A : Type} [DecidableEq K] (lt : K → K → Bool) (k : K) (v : A) :
    ∀ l q, q ∈ sSet lt k v l → q = (k, v) ∨ q ∈ l := by
  intro l
  induction l with
  | nil => intro q hq; simp [sSet] at hq; exact Or.inl hq
  | cons p t ih =>
    intro q hq
    simp only [sSet] at hq
    split at hq
    · rcases List.mem_cons.1 hq with h | h
      · exact Or.inl h
      · exact Or.inr h
    · split at hq
      · rcases List.mem_cons.1 hq with h | h
        · exact Or.inl h
        · exact Or.inr (List.mem_cons_of_mem p h)
      · rcases List.mem_cons.1 hq with h | h
        · exact Or.inr (h ▸ List.mem_cons_self p t)
        · rcases ih q h with h2 | h2
          · exact Or.inl h2
          · exact Or.inr (List.mem_cons_of_mem p h2)

theorem pairwise_sSet {K A : Type} [DecidableEq K] {lt : K → K → Bool}
    (ho : StrictOrd lt) (k : K) (v : A) :
    ∀ l, List.Pairwise (fun a b => lt a.1 b.1 = true) l →
      List.Pairwise (fun a b => lt a.1 b.1 = true) (sSet lt k v l) := by
  obtain ⟨hirr, htr, htot⟩ := ho
  intro l
  induction l with
  | nil => intro _; simp [sSet]
  | cons p t ih =>
    intro hp
    rw [List.pairwise_cons] at hp
    obtain ⟨hhead, htail⟩ := hp
    simp only [sSet]
    split
    · next h1 =>
      refine List.pairwise_cons.2 ⟨?_, List.pairwise_cons.2 ⟨hhead, htail⟩⟩
      intro q hq
      rcases List.mem_cons.1 hq with h | h
      · rw [h]; exact h1
      · exact htr _ _ _ h1 (hhead q h)
    · split
      · next h1 h2 =>
        refine List.pairwise_cons.2 ⟨?_, htail⟩
        intro q hq
        rw [← h2]
        exact hhead q hq
      · next h1 h2 =>
        refine List.pairwise_cons.2 ⟨?_, ih htail⟩
        intro q hq
        rcases mem_sSet lt k v t q hq with h | h
        · rw [h]
          rcases htot p.1 k h2 with h3 | h3
          · exact h3
          · rw [h3] at h1; exact absurd rfl h1
        · exact hhead q h

theorem sSet_append {K A : Type} [DecidableEq K] {lt : K → K → Bool}
    (ho : StrictOrd lt) (k : K) (v : A) :
    ∀ l, (∀ p ∈ l, lt p.1 k = true) → sSet lt k v l = l ++ [(k, v)] := by
  obtain ⟨hirr, htr, htot⟩ := ho
  intro l
  induction l with
  | nil => intro _; simp [sSet]
  | cons p t ih =>
    intro h
    have hpk : lt p.1 k = true := h p (List.mem_cons_self p t)
    have h1 : lt k p.1 = false := by
      by_cases hc : lt k p.1 = true
      · have := htr _ _ _ hc hpk
        rw [hirr k] at this
        exact absurd this (by simp)
      · simpa using hc
    have h2 : p.1 ≠ k := by
      intro he
      rw [he, hirr k] at hpk
      exact absurd hpk (by simp)
    simp only [sSet, h1, h2, if_false, Bool.false_eq_true, ite_false]
    rw [ih (fun q hq => h q (List.mem_cons_of_mem p hq))]
    simp

theorem foldl_sSet_rebuild {K A : Type} [DecidableEq K] {lt : K → K → Bool}
    (ho : StrictOrd lt) :
    ∀ (l acc : List (K × A)),
      List.Pairwise (fun a b => lt a.1 b.1 = true) (acc ++ l) →
      List.foldl (fun m p => sSet lt p.1 p.2 m) acc l = acc ++ l := by
  intro l
  induction l with
  | nil => intro acc _; simp
  | cons p t ih =>
    intro acc hp
    have hstep : sSet lt p.1 p.2 acc = acc ++ [p] := by
      have h : ∀ q ∈ acc, lt q.1 p.1 = true := by
        intro q hq
        have := (List.pairwise_append.1 hp).2.2 q hq p (List.mem_cons_self p t)
        exact this
      have := sSet_append ho p.1 p.2 acc h
      rw [this]
    rw [List.foldl_cons, hstep, ih (acc ++ [p]) (by simpa using hp)]
    simp

theorem sGet_mem {K A : Type} [DecidableEq K] {k : K} {a : A} :
    ∀ {l : List (K × A)}, sGet k l = some a → (k, a) ∈ l := by
  intro l
  induction l with
  | nil => intro h; simp [sGet] at h
  | cons p t ih =>
    intro h
    simp only [sGet] at h
    split at h
    · next he =>
      cases h
      have hp : (k, p.2) = p := by
        rw [← he]
      rw [hp]
      exact List.mem_cons_self p t
    · exact List.mem_cons_of_mem p (ih h)

/-! ### Preservation lemmas for the primitive operations -/

theorem expSet_sys (d : LevelData) (key : ExpireKey) (v : Option (Str × Option KVMeta)) :
    (d.expSet key v).sys = d.sys ∧ (d.expSet key v).kv = d.kv := by
  cases v <;> simp [LevelData.expSet]

theorem update_expire_index_kv (sm : SMV003) (key : Str)
    (removed added : Marked Bytes) :
    (sm.update_expire_index key removed added).level.kv = sm.level.kv := by
  unfold SMV003.update_expire_index
  split
  · rfl
  · cases hr : removed.expire_at_ms <;> cases ha : added.expire_at_ms <;>
      simp [hr, ha, LevelData.expSet]

theorem update_expire_index_sys (sm : SMV003) (key : Str)
    (removed added : Marked Bytes) :
    (sm.update_expire_index key removed added).level.sys = sm.level.sys := by
  unfold SMV003.update_expire_index
  split
  · rfl
  · cases hr : removed.expire_at_ms <;> cases ha : added.expire_at_ms <;>
      simp [hr, ha, LevelData.expSet]

theorem update_expire_index_cursor (sm : SMV003) (key : Str)
    (removed added : Marked Bytes) :
    (sm.update_expire_index key removed added).expire_cursor = sm.expire_cursor := by
  unfold SMV003.update_expire_index
  split
  · rfl
  · cases hr : removed.expire_at_ms <;> cases ha : added.expire_at_ms <;>
      simp [hr, ha, LevelData.expSet]

/-- C6: installing a snapshot whose last_applied is not newer while the
current last_applied is present leaves the state machine unchanged;
otherwise the whole stack is replaced by the single imported level and
the expire cursor is reset to (0, 0).  In particular the internal
monotonicity assertion of replace never fails on this path. -/
theorem install_snapshot_cases (sm : SMV003) (d : LevelData) :
    sm.install_snapshot d =
      some (if optionLogIdLe d.sys.last_applied sm.level.sys.last_applied
              && (sm.level.sys.last_applied).isSome
            then sm
            else { level := d, expire_cursor := ⟨0, 0⟩ }) := by
  unfold SMV003.install_snapshot
  split
  · rfl
  · next h =>
    unfold SMV003.replace
    rw [if_pos]
    cases hla : sm.level.sys.last_applied with
    | none => rfl
    | some x =>
      rw [hla] at h
      cases hd : d.sys.last_applied with
      | none =>
        exfalso
        apply h
        rw [hd]
        rfl
      | some y =>
        rw [hd] at h
        have hy : LogId.ble y x = false := by
          by_cases hc : LogId.ble y x = true
          · exfalso
            apply h
            simp [optionLogIdLe, hc]
          · simpa using hc
        rcases logIdBle_totalOrder x y with h2 | h2
        · simpa [optionLogIdLe] using h2
        · rw [h2] at hy
          cases hy

/-- Relate kvGet to membership in the kv list. -/
theorem kvGet_normal_mem {d : LevelData} {key : Str} {s : Nat} {v : Bytes}
    {m : Option KVMeta} (h : d.kvGet key = .normal s v m) :
    (key, Marked.normal s v m) ∈ d.kv := by
  unfold LevelData.kvGet at h
  cases hg : sGet key d.kv with
  | none => rw [hg] at h; cases h
  | some w =>
    rw [hg] at h
    simp only [Option.getD_some] at h
    rw [h] at hg
    exact sGet_mem hg

/-- C4: an upsert whose MatchSeq does not match the previous seq (absent is
seq 0) returns (prev, prev) and is a complete no-op on the state; and
MatchSeq::Exact 0 matches exactly the absent keys. -/
theorem upsert_kv_match_seq_noop (sm : SMV003) (u : UpsertKV) (hwf : sm.wf) :
    (u.seq.match_seq ((sm.level.kvGet u.key).seq) = false →
      sm.upsert_kv u =
        (sm, (sm.level.kvGet u.key).to_seqv, (sm.level.kvGet u.key).to_seqv)) ∧
    ((MatchSeq.exact 0).match_seq ((sm.level.kvGet u.key).seq) = true ↔
      sm.get_kv u.key = none) := by
  constructor
  · intro h
    unfold SMV003.upsert_kv SMV003.upsert_kv_primary_index
    rw [if_pos h]
    unfold SMV003.update_expire_index
    simp
  · cases hkv : sm.level.kvGet u.key with
    | normal s v m =>
      have hmem := kvGet_normal_mem hkv
      have hs : 1 ≤ s := by
        have := hwf.2.2.1 (u.key, Marked.normal s v m) hmem
        simpa [Marked.seqPos] using this
      constructor
      · intro h
        simp only [MatchSeq.match_seq, Marked.seq, decide_eq_true_eq] at h
        omega
      · intro h
        unfold SMV003.get_kv at h
        rw [hkv] at h
        simp [Marked.to_seqv] at h
    | tombStone s =>
      constructor
      · intro _
        unfold SMV003.get_kv
        rw [hkv]
        rfl
      · intro _
        simp [MatchSeq.match_seq, Marked.seq]

/-- Witness for C4 at a concrete state: key x has seq 5, Exact 9 does not
match, the upsert is a no-op; and Exact 0 does not match the live key. -/
theorem upsert_kv_match_seq_noop_witness :
    (smX.upsert_kv ⟨[120], .exact 9, .update [1], none⟩ =
      (smX, some ⟨5, none, [65]⟩, some ⟨5, none, [65]⟩)) ∧
    ¬smX.get_kv [120] = none := by
  have h := upsert_kv_match_seq_noop smX ⟨[120], .exact 9, .update [1], none⟩ (by
    constructor
    · decide
    · constructor
      · decide
      · constructor
        · decide
        · decide)
  constructor
  · have h1 := h.1 (by decide)
    rw [h1]
    decide
  · intro hc
    have h2 := h.2.2 hc
    revert h2
    decide

/-- C5: an upsert whose new entry carries an expire time strictly below the
expire cursor gets a tombstone written on top at once: the returned result
is "not found", the key reads as a tombstone, and seqs were still
consumed. -/
theorem upsert_kv_expired_insert (sm : SMV003) (key : Str) (ms : MatchSeq)
    (v : Bytes) (e : Nat)
    (hmatch : ms.match_seq ((sm.level.kvGet key).seq) = true)
    (hexp : e < sm.expire_cursor.time_ms) :
    ((sm.upsert_kv ⟨key, ms, .update v, some ⟨some e⟩⟩).2.2 = none) ∧
    ((sm.upsert_kv ⟨key, ms, .update v, some ⟨some e⟩⟩).1.curr_seq =
      sm.curr_seq + 2) ∧
    ((sm.upsert_kv ⟨key, ms, .update v, some ⟨some e⟩⟩).1.level.kvGet key =
      .tombStone (sm.curr_seq + 2)) := by
  have hprim : sm.upsert_kv_primary_index ⟨key, ms, .update v, some ⟨some e⟩⟩ =
      ({ sm with
          level :=
            { sys := { sm.level.sys with seq := sm.level.sys.seq + 1 + 1 },
              kv := sSet strLt key (Marked.tombStone (sm.level.sys.seq + 1 + 1))
                (sSet strLt key
                  (Marked.normal (sm.level.sys.seq + 1) v (some ⟨some e⟩))
                  sm.level.kv),
              expire := sm.level.expire } },
        sm.level.kvGet key, Marked.tombStone (sm.level.sys.seq + 1 + 1)) := by
    unfold SMV003.upsert_kv_primary_index LevelData.kvSet UpsertKV.get_expire_at_ms
    simp [hmatch, hexp]
  unfold SMV003.upsert_kv
  rw [hprim]
  refine ⟨rfl, ?_, ?_⟩
  · simp only [SMV003.curr_seq, LevelData.curr_seq, update_expire_index_sys]
  · simp only [LevelData.kvGet, update_expire_index_kv]
    rw [sGet_sSet_self]
    rfl

/-- Witness for C5: inserting x with expire 50 under a cursor at time 100
yields result none, a tombstone of seq 2, and a seq counter of 2. -/
theorem upsert_kv_expired_insert_witness :
    ((smCursor.upsert_kv ⟨[120], .any, .update [1], some ⟨some 50⟩⟩).2.2 = none) ∧
    ((smCursor.upsert_kv ⟨[120], .any, .update [1], some ⟨some 50⟩⟩).1.curr_seq = 2) ∧
    ((smCursor.upsert_kv ⟨[120], .any, .update [1], some ⟨some 50⟩⟩).1.level.kvGet
      [120] = .tombStone 2) :=
  upsert_kv_expired_insert smCursor [120] .any [1] 50 (by decide) (by decide)

/-! ### last_applied preservation along command execution -/

theorem kvSet_sys_last_applied (d : LevelData) (key : Str)
    (v : Option (Bytes × Option KVMeta)) :
    (d.kvSet key v).1.sys.last_applied = d.sys.last_applied := by
  rcases v with _ | ⟨vv, mm⟩ <;> simp [LevelData.kvSet]

theorem update_meta_sys_last_applied (d : LevelData) (key : Str)
    (m : Option KVMeta) :
    (d.update_meta key m).1.sys.last_applied = d.sys.last_applied := by
  unfold LevelData.update_meta
  cases d.kvGet key <;> simp

theorem upsert_primary_last_applied (sm : SMV003) (u : UpsertKV) :
    (sm.upsert_kv_primary_index u).1.level.sys.last_applied =
      sm.level.sys.last_applied := by
  simp only [SMV003.upsert_kv_primary_index]
  by_cases hc : u.seq.match_seq ((sm.level.kvGet u.key).seq) = false
  · rw [if_pos hc]
  · rw [if_neg hc]
    rcases u.value with v' | _ | _ <;>
      split <;>
      simp [kvSet_sys_last_applied, update_meta_sys_last_applied]

theorem upsert_kv_last_applied (sm : SMV003) (u : UpsertKV) :
    (sm.upsert_kv u).1.level.sys.last_applied = sm.level.sys.last_applied := by
  unfold SMV003.upsert_kv
  simp [update_expire_index_sys, upsert_primary_last_applied]

theorem push_change_sm (a : Applier) (key : Str)
    (prev result : Option (SeqV Bytes)) :
    (a.push_change key prev result).sm = a.sm := by
  unfold Applier.push_change
  split <;> rfl

theorem applier_upsert_last_applied (a : Applier) (u : UpsertKV) :
    (a.upsert_kv u).1.sm.level.sys.last_applied = a.sm.level.sys.last_applied := by
  unfold Applier.upsert_kv
  simp [push_change_sm, upsert_kv_last_applied]

theorem txnDeleteByPfxGo_last_applied (a : Applier) :
    ∀ kvs, (a.txnDeleteByPfxGo kvs).sm.level.sys.last_applied =
      a.sm.level.sys.last_applied := by
  intro kvs
  induction kvs generalizing a with
  | nil => rfl
  | cons p t ih =>
    show ((((a.upsert_kv (UpsertKV.deleteReq p.1)).1).push_change p.1
        (a.upsert_kv (UpsertKV.deleteReq p.1)).2.1
        (a.upsert_kv (UpsertKV.deleteReq p.1)).2.2).txnDeleteByPfxGo
        t).sm.level.sys.last_applied = a.sm.level.sys.last_applied
    rw [ih, push_change_sm, applier_upsert_last_applied]

theorem txn_execute_operation_last_applied (a : Applier) (op : TxnOp)
    (resps : List TxnOpResponse) :
    (a.txn_execute_operation op resps).1.sm.level.sys.last_applied =
      a.sm.level.sys.last_applied := by
  unfold Applier.txn_execute_operation
  rcases op with ⟨_ | req⟩
  · rfl
  rcases req with key | ⟨key, v, e, pv⟩ | ⟨key, ms, pv⟩ | p
  · rfl
  · unfold Applier.txn_execute_put
    simpa using applier_upsert_last_applied a (UpsertKV.updateReq key v (some ⟨e⟩))
  · unfold Applier.txn_execute_delete
    rcases ms with _ | s <;>
      simpa using applier_upsert_last_applied a _
  · unfold Applier.txnExecuteDeleteByPfx
    simpa using txnDeleteByPfxGo_last_applied a (a.sm.pfxListKv p)

theorem txn_run_ops_last_applied (a : Applier) :
    ∀ ops resps, (a.txn_run_ops ops resps).1.sm.level.sys.last_applied =
      a.sm.level.sys.last_applied := by
  intro ops
  induction ops generalizing a with
  | nil => intro resps; rfl
  | cons op t ih =>
    intro resps
    show (((a.txn_execute_operation op resps).1).txn_run_ops t
        (a.txn_execute_operation op resps).2).1.sm.level.sys.last_applied =
      a.sm.level.sys.last_applied
    rw [ih, txn_execute_operation_last_applied]

theorem apply_txn_last_applied (a : Applier) (req : TxnRequest) :
    (a.apply_txn req).1.sm.level.sys.last_applied = a.sm.level.sys.last_applied := by
  unfold Applier.apply_txn
  simpa using txn_run_ops_last_applied a
    (if a.eval_txn_conditions req.condition then req.if_then else req.else_then) []

theorem apply_cmd_last_applied (a : Applier) (cmd : Cmd) :
    (a.apply_cmd cmd).1.sm.level.sys.last_applied = a.sm.level.sys.last_applied := by
  rcases cmd with ⟨nid, node, ovr⟩ | nid | u | t
  · simp only [Applier.apply_cmd, Applier.apply_add_node]
    cases hs : sGet nid a.sm.level.sys.nodes <;> simp [hs]
    split <;> simp
  · rfl
  · simp only [Applier.apply_cmd, Applier.apply_upsert_kv]
    simpa using applier_upsert_last_applied a u
  · simp only [Applier.apply_cmd]
    simpa using apply_txn_last_applied a t

/-! ### C1: apply and last_applied -/

/-- C1 (amended): whenever ApplierV003::apply completes on an entry, it has
set last_applied to that entry's log id, unconditionally: no assertion
compares the new log id with the previous last_applied, so monotonicity
holds only when the caller feeds entries in increasing log-id order. -/
theorem apply_sets_last_applied (a : Applier) (e : Entry)
    (r : Applier × AppliedState) (h : a.apply e = some r) :
    r.1.sm.level.sys.last_applied = some e.log_id := by
  unfold Applier.apply at h
  cases hc : a.clean_expired_kvs (get_log_time e) with
  | none =>
    rw [hc] at h
    cases h
  | some a1 =>
    rw [hc] at h
    simp only [Option.map_some', Option.some.injEq] at h
    cases hp : e.payload with
    | blank =>
      rw [hp] at h
      cases h
      rfl
    | membership m =>
      rw [hp] at h
      cases h
      rfl
    | normal tm cmd =>
      rw [hp] at h
      cases h
      rw [apply_cmd_last_applied]
      rfl

/-- Witness for C1 at a concrete input: applying a blank entry with log id
(1, 1, 1) to the empty state sets last_applied to it. -/
theorem apply_sets_last_applied_witness :
    applyBlankRes.1.sm.level.sys.last_applied = some ⟨1, 1, 1⟩ :=
  apply_sets_last_applied ⟨sm0, []⟩ eBlank applyBlankRes (by decide)

/-- C1 counterexample: the state has last_applied (1, 1, 9); applying an
entry with the smaller log id (1, 1, 1) is not rejected — apply returns a
result and last_applied has decreased to (1, 1, 1). -/
theorem apply_monotonicity_cex :
    (Applier.apply ⟨smApplied9, []⟩ ⟨⟨1, 1, 1⟩, .blank⟩).map
        (fun r => r.1.sm.level.sys.last_applied) = some (some ⟨1, 1, 1⟩) ∧
    optionLogIdLe (some ⟨1, 1, 1⟩) smApplied9.level.sys.last_applied = true ∧
    ¬smApplied9.level.sys.last_applied = some ⟨1, 1, 1⟩ :=
  ⟨by decide, by decide, by decide⟩

/-! ### C7 and C10: transaction conditions -/

theorem bnot_bytesLt (l r : Bytes) :
    (!bytesLt l r) = (bytesLt r l || decide (l = r)) := by
  by_cases he : l = r
  · subst he
    simp [bytesLt_irrefl]
  · rcases bytesLt_total l r he with h | h
    · simp [h, bytesLt_asymm _ _ h, he]
    · simp [h, bytesLt_asymm _ _ h]

theorem eval_one_condition_eq_spec (a : Applier) (c : TxnCondition) :
    a.eval_one_condition c = specCondition a.sm c := by
  unfold Applier.eval_one_condition specCondition
  cases ht : c.target with
  | none => rfl
  | some tg =>
    cases tg with
    | seqTarget n =>
      cases hk : a.sm.get_kv c.key <;>
        cases c.expected <;>
          simp [eval_seq_condition, specCmpNat, optSeq, eq_comm]
    | valueTarget v =>
      cases hk : a.sm.get_kv c.key with
      | none => simp [optValue]
      | some sv =>
        cases c.expected <;>
          simp [eval_value_condition, specCmpBytes, optValue, bnot_bytesLt, eq_comm]

theorem eval_txn_conditions_eq_all (a : Applier) :
    ∀ conds, a.eval_txn_conditions conds =
      conds.all (fun c => specCondition a.sm c) := by
  intro conds
  induction conds with
  | nil => rfl
  | cons c t ih =>
    show (if a.eval_one_condition c then a.eval_txn_conditions t else false) = _
    rw [eval_one_condition_eq_spec, ih, List.all_cons]
    cases specCondition a.sm c <;> simp

/-- C7: condition evaluation is the short-circuit conjunction over the
list, where a Seq target compares the live seq (absent keys have seq 0), a
Value target is compared lexicographically and is false on an absent key,
with the six comparators; all conditions passing runs if_then, otherwise
else_then, and TxnReply.success records which branch ran. -/
theorem apply_txn_spec (a : Applier) (req : TxnRequest) :
    ((a.apply_txn req).2.success =
        req.condition.all (fun c => specCondition a.sm c)) ∧
    (a.apply_txn req =
      ((a.txn_run_ops
          (if req.condition.all (fun c => specCondition a.sm c)
            then req.if_then else req.else_then) []).1,
        ⟨req.condition.all (fun c => specCondition a.sm c), [],
          (a.txn_run_ops
            (if req.condition.all (fun c => specCondition a.sm c)
              then req.if_then else req.else_then) []).2⟩)) := by
  unfold Applier.apply_txn
  rw [eval_txn_conditions_eq_all]
  exact ⟨rfl, rfl⟩

/-- C10: a condition whose target is absent evaluates to false regardless
of the state, so the transaction runs its else_then branch and reports
success = false. -/
theorem txn_absent_target_runs_else (a : Applier) (req : TxnRequest)
    (c : TxnCondition) (hm : c ∈ req.condition) (ht : c.target = none) :
    ((a.apply_txn req).2.success = false) ∧
    (a.apply_txn req =
      ((a.txn_run_ops req.else_then []).1,
        ⟨false, [], (a.txn_run_ops req.else_then []).2⟩)) := by
  have hone : a.eval_one_condition c = false := by
    unfold Applier.eval_one_condition
    rw [ht]
  have hfalse : a.eval_txn_conditions req.condition = false := by
    rw [eval_txn_conditions_eq_all]
    refine List.all_eq_false.2 ⟨c, hm, ?_⟩
    rw [← eval_one_condition_eq_spec a c, hone]
    simp
  unfold Applier.apply_txn
  rw [hfalse]
  exact ⟨rfl, rfl⟩

/-- Witness for C10: a single condition with an absent target on a live
key makes the transaction fail and answer through the (empty) else
branch. -/
theorem txn_absent_target_runs_else_witness :
    ((Applier.apply_txn ⟨smX, []⟩
        ⟨[⟨[120], .eq, none⟩], [⟨some (.get [120])⟩], []⟩).2.success = false) ∧
    (Applier.apply_txn ⟨smX, []⟩
        ⟨[⟨[120], .eq, none⟩], [⟨some (.get [120])⟩], []⟩ =
      ((Applier.txn_run_ops ⟨smX, []⟩ [] []).1,
        ⟨false, [], (Applier.txn_run_ops ⟨smX, []⟩ [] []).2⟩)) :=
  txn_absent_target_runs_else ⟨smX, []⟩
    ⟨[⟨[120], .eq, none⟩], [⟨some (.get [120])⟩], []⟩
    ⟨[120], .eq, none⟩ (by decide) rfl

/-! ### C8: delete-by-prefix emits duplicated change events -/

/-- C8 evidence: deleting the keys extending a/ from the state holding
a/1, a/2, b/1 answers count 2 and leaves only b/1 — but four change
events are pushed, two per deleted key in scanned-key order, because
txn_execute_delete_by_prefix pushes the change again after
ApplierV003::upsert_kv has already pushed it (the sibling put, delete and
expiration-sweep paths push exactly once). -/
theorem delete_by_pfx_duplicate_events :
    ((Applier.apply_txn ⟨smAB, []⟩
        ⟨[], [⟨some (.deleteByPfx [97, 47])⟩], []⟩).2 =
      ⟨true, [], [.deleteByPfxResp [97, 47] 2]⟩) ∧
    ((Applier.apply_txn ⟨smAB, []⟩
        ⟨[], [⟨some (.deleteByPfx [97, 47])⟩], []⟩).1.sm.get_kv
        [97, 47, 49] = none) ∧
    ((Applier.apply_txn ⟨smAB, []⟩
        ⟨[], [⟨some (.deleteByPfx [97, 47])⟩], []⟩).1.sm.get_kv
        [97, 47, 50] = none) ∧
    ((Applier.apply_txn ⟨smAB, []⟩
        ⟨[], [⟨some (.deleteByPfx [97, 47])⟩], []⟩).1.sm.get_kv
        [98, 47, 49] = some ⟨3, none, [51]⟩) ∧
    ((Applier.apply_txn ⟨smAB, []⟩
        ⟨[], [⟨some (.deleteByPfx [97, 47])⟩], []⟩).1.changes.map
        (fun c => c.key) =
      [[97, 47, 49], [97, 47, 49], [97, 47, 50], [97, 47, 50]]) := by
  refine ⟨by decide, by decide, by decide, by decide, by decide⟩

/-! ### C9: the importer's commit assertion -/

theorem importAll_greatest (es : List RaftStoreEntry) :
    ∀ (i j : Importer), i.importAll es = some j →
      j.greatest_seq = es.foldl (fun g e =>
        match e with
        | .genericKV _ value => max g value.seq
        | .expire _ value => max g (if value.seq = 0 then 1 else value.seq)
        | _ => g) i.greatest_seq := by
  induction es with
  | nil =>
    intro i j h
    cases h
    rfl
  | cons e t ih =>
    intro i j h
    cases e <;>
      simp only [Importer.importAll, Importer.importEntry, Option.some_bind] at h <;>
      first
      | cases h
      | (rw [ih _ _ h]; rfl)
      | (rw [ih _ _ h]
         rename_i k v
         by_cases h0 : v.seq = 0 <;> simp [h0])

/-- C9: Importer::commit succeeds exactly when the greatest seq observed
among the imported GenericKV and Expire entries (an Expire seq 0 being
imported as 1) does not exceed the imported seq counter; hence after a
successful import the observed greatest seq is bounded by the counter. -/
theorem importer_commit_guard (es : List RaftStoreEntry) (i : Importer)
    (h : Importer.default.importAll es = some i) :
    (i.greatest_seq = specGreatestSeq es) ∧
    (i.commit.isSome = true ↔ specGreatestSeq es ≤ i.level_data.sys.seq) ∧
    (∀ d, i.commit = some d → specGreatestSeq es ≤ d.sys.seq) := by
  have hg : i.greatest_seq = specGreatestSeq es := by
    have := importAll_greatest es Importer.default i h
    simpa [specGreatestSeq, Importer.default] using this
  refine ⟨hg, ?_, ?_⟩
  · simp only [Importer.commit]
    rw [← hg]
    split
    · next hle => simpa [LevelData.curr_seq] using hle
    · next hle => simpa [LevelData.curr_seq] using hle
  · intro d hd
    simp only [Importer.commit] at hd
    rw [← hg]
    split at hd
    · next hle =>
      cases hd
      simpa [LevelData.curr_seq] using hle
    · cases hd

/-- Witness for C9: a stream with one kv record of seq 5 and a counter of
5 commits, and the observed greatest seq is 5. -/
theorem importer_commit_guard_witness :
    ((Importer.default.importAll
        [.genericKV [97] ⟨5, none, [1]⟩, .sequences 5]).map
      (fun i => (i.greatest_seq, i.commit.isSome)) = some (5, true)) := by
  have h : Importer.default.importAll
      [.genericKV [97] ⟨5, none, [1]⟩, .sequences 5] =
      some ⟨⟨⟨5, none, ⟨none, 0⟩, []⟩, [], []⟩,
        [([97], .normal 5 [1] none)], [], 5⟩ := by decide
  have hth := importer_commit_guard
    [.genericKV [97] ⟨5, none, [1]⟩, .sequences 5]
    ⟨⟨⟨5, none, ⟨none, 0⟩, []⟩, [], []⟩, [([97], .normal 5 [1] none)], [], 5⟩ h
  rw [h, Option.map_some']
  have h1 := hth.1
  have h2 := hth.2.1.2 (by decide)
  rw [h1]
  rw [h2]
  decide

/-! ### C3: snapshot export / import round trip -/

theorem importAll_append (xs ys : List RaftStoreEntry) :
    ∀ i, Importer.importAll i (xs ++ ys) =
      (Importer.importAll i xs).bind (fun i2 => Importer.importAll i2 ys) := by
  induction xs with
  | nil => intro i; rfl
  | cons e t ih =>
    intro i
    simp only [Importer.importAll]
    cases i.importEntry e with
    | none => rfl
    | some i2 => simp [ih i2]

theorem importAll_nodes (l : List (NodeId × Node)) :
    ∀ i, Importer.importAll i (l.map (fun p => RaftStoreEntry.nodes p.1 p.2)) =
      some { i with level_data := { i.level_data with sys := { i.level_data.sys with
        nodes := l.foldl (fun m p => sSet natLt p.1 p.2 m) i.level_data.sys.nodes } } } := by
  induction l with
  | nil => intro i; rfl
  | cons p t ih =>
    intro i
    simp only [List.map_cons, Importer.importAll, Importer.importEntry,
      Option.some_bind]
    rw [ih]
    rfl

theorem importAll_kvList (l : List (Str × Marked Bytes))
    (hl : ∀ p ∈ l, p.2.is_tomb_stone = false) :
    ∀ i, Importer.importAll i (l.filterMap (fun p =>
        match p.2 with
        | .normal s v m => some (RaftStoreEntry.genericKV p.1 ⟨s, m, v⟩)
        | .tombStone _ => none)) =
      some { i with
        kv := l.foldl (fun m p => sSet strLt p.1 p.2 m) i.kv,
        greatest_seq := l.foldl (fun g p => max g p.2.internal_seq) i.greatest_seq } := by
  induction l with
  | nil => intro i; rfl
  | cons p t ih =>
    intro i
    cases hp : p.2 with
    | tombStone s =>
      have := hl p (List.mem_cons_self p t)
      rw [hp] at this
      cases this
    | normal s v m =>
      have hrest : ∀ q ∈ t, q.2.is_tomb_stone = false :=
        fun q hq => hl q (List.mem_cons_of_mem p hq)
      simp only [List.filterMap_cons, hp, Importer.importAll, Importer.importEntry,
        Option.some_bind, List.foldl_cons]
      rw [ih hrest]
      rfl

theorem importAll_expList (l : List (ExpireKey × Marked Str))
    (hl : ∀ p ∈ l, ∃ s v, p.2 = Marked.normal s v none ∧ 1 ≤ s) :
    ∀ i, Importer.importAll i (l.filterMap (fun p =>
        match p.2 with
        | .normal s v _ => some (RaftStoreEntry.expire p.1 ⟨s, v⟩)
        | .tombStone _ => none)) =
      some { i with
        expire := l.foldl (fun m p => sSet ExpireKey.blt p.1 p.2 m) i.expire,
        greatest_seq := l.foldl (fun g p => max g p.2.internal_seq) i.greatest_seq } := by
  induction l with
  | nil => intro i; rfl
  | cons p t ih =>
    intro i
    obtain ⟨s, v, hp, hs⟩ := hl p (List.mem_cons_self p t)
    have hrest : ∀ q ∈ t, ∃ s v, q.2 = Marked.normal s v none ∧ 1 ≤ s :=
      fun q hq => hl q (List.mem_cons_of_mem p hq)
    have hs0 : ¬(s = 0) := by omega
    simp only [List.filterMap_cons, hp, Importer.importAll, Importer.importEntry,
      Option.some_bind, List.foldl_cons, hs0, if_false, ite_false]
    rw [ih hrest]
    rfl

theorem foldl_max_le {A : Type} (f : A → Nat) (bound : Nat) :
    ∀ (l : List A) (g : Nat), g ≤ bound → (∀ p ∈ l, f p ≤ bound) →
      l.foldl (fun g p => max g (f p)) g ≤ bound := by
  intro l
  induction l with
  | nil => intro g hg _; simpa using hg
  | cons p t ih =>
    intro g hg hl
    simp only [List.foldl_cons]
    refine ih _ ?_ (fun q hq => hl q (List.mem_cons_of_mem p hq))
    have := hl p (List.mem_cons_self p t)
    omega

/-- C3: exporting a well-formed compacted state through
SnapshotViewV003::export and importing the resulting entry stream with
the Importer into an empty state commits successfully and rebuilds a
state identical in kv map, expiration index, nodes, last_applied,
last_membership and seq counter. -/
theorem export_import_round_trip (d : LevelData) (h : d.exportWf) :
    importCommit d.export = some d := by
  obtain ⟨sys, dkv, dexp⟩ := d
  obtain ⟨dseq, dla, dlm, dnodes⟩ := sys
  obtain ⟨hkv_s, hexp_s, hnodes_s, hkv_ok, hexp_ok⟩ := h
  have hkv_nt : ∀ p ∈ dkv, p.2.is_tomb_stone = false := by
    intro p hp
    have hx := hkv_ok p hp
    obtain ⟨k, mv⟩ := p
    cases mv <;> simp [LevelData.kvExportOk, Marked.is_tomb_stone] at hx ⊢
  have hkv_le : ∀ p ∈ dkv, p.2.internal_seq ≤ dseq := by
    intro p hp
    have hx := hkv_ok p hp
    obtain ⟨k, mv⟩ := p
    cases mv with
    | normal s v m =>
      simp [LevelData.kvExportOk] at hx
      simp [Marked.internal_seq, hx]
    | tombStone s => simp [LevelData.kvExportOk] at hx
  have hexp_shape : ∀ p ∈ dexp, ∃ s v, p.2 = Marked.normal s v none ∧ 1 ≤ s := by
    intro p hp
    have hx := hexp_ok p hp
    obtain ⟨k, mv⟩ := p
    cases mv with
    | tombStone s => simp [LevelData.expExportOk] at hx
    | normal s v m =>
      cases m with
      | none =>
        simp [LevelData.expExportOk] at hx
        exact ⟨s, v, rfl, hx.1⟩
      | some mm => simp [LevelData.expExportOk] at hx
  have hexp_le : ∀ p ∈ dexp, p.2.internal_seq ≤ dseq := by
    intro p hp
    have hx := hexp_ok p hp
    obtain ⟨k, mv⟩ := p
    cases mv with
    | tombStone s => simp [LevelData.expExportOk] at hx
    | normal s v m =>
      cases m with
      | none =>
        simp [LevelData.expExportOk] at hx
        simp [Marked.internal_seq, hx.2]
      | some mm => simp [LevelData.expExportOk] at hx
  unfold importCommit LevelData.export
  rw [importAll_append, importAll_append]
  cases dla with
  | none =>
    have hpre : Importer.default.importAll
        ([RaftStoreEntry.dataHeader]
          ++ (match (none : Option LogId) with
              | some l => [RaftStoreEntry.smLastApplied l]
              | none => [])
          ++ [RaftStoreEntry.smLastMembership dlm]
          ++ [RaftStoreEntry.sequences dseq]
          ++ dnodes.map (fun p => RaftStoreEntry.nodes p.1 p.2)) =
        some ⟨⟨⟨dseq, none, dlm, dnodes⟩, [], []⟩, [], [], 0⟩ := by
      simp only [List.nil_append, List.cons_append, List.singleton_append]
      simp only [Importer.importAll, Importer.importEntry, Importer.default,
        Option.some_bind]
      rw [importAll_nodes]
      rw [show (List.foldl (fun m p => sSet natLt p.1 p.2 m) [] dnodes) = [] ++ dnodes from
        foldl_sSet_rebuild strictOrd_natLt dnodes [] (by simpa using hnodes_s)]
      rfl
    rw [hpre]
    simp only [Option.some_bind]
    rw [importAll_kvList dkv hkv_nt]
    simp only [Option.some_bind]
    rw [show (List.foldl (fun m p => sSet strLt p.1 p.2 m) [] dkv) = [] ++ dkv from
      foldl_sSet_rebuild strictOrd_strLt dkv [] (by simpa using hkv_s)]
    rw [importAll_expList dexp hexp_shape]
    simp only [Option.some_bind]
    rw [show (List.foldl (fun m p => sSet ExpireKey.blt p.1 p.2 m) [] dexp) = [] ++ dexp from
      foldl_sSet_rebuild strictOrd_ekBlt dexp [] (by simpa using hexp_s)]
    have hg : List.foldl (fun g p => max g p.2.internal_seq)
        (List.foldl (fun g p => max g p.2.internal_seq) 0 dkv) dexp ≤ dseq := by
      refine foldl_max_le _ _ dexp _ ?_ hexp_le
      exact foldl_max_le _ _ dkv 0 (Nat.zero_le _) hkv_le
    simp only [Importer.commit, List.nil_append]
    rw [if_pos]
    simpa [LevelData.curr_seq] using hg
  | some l =>
    have hpre : Importer.default.importAll
        ([RaftStoreEntry.dataHeader]
          ++ (match (some l : Option LogId) with
              | some l => [RaftStoreEntry.smLastApplied l]
              | none => [])
          ++ [RaftStoreEntry.smLastMembership dlm]
          ++ [RaftStoreEntry.sequences dseq]
          ++ dnodes.map (fun p => RaftStoreEntry.nodes p.1 p.2)) =
        some ⟨⟨⟨dseq, some l, dlm, dnodes⟩, [], []⟩, [], [], 0⟩ := by
      simp only [List.nil_append, List.cons_append, List.singleton_append]
      simp only [Importer.importAll, Importer.importEntry, Importer.default,
        Option.some_bind]
      rw [importAll_nodes]
      rw [show (List.foldl (fun m p => sSet natLt p.1 p.2 m) [] dnodes) = [] ++ dnodes from
        foldl_sSet_rebuild strictOrd_natLt dnodes [] (by simpa using hnodes_s)]
      rfl
    rw [hpre]
    simp only [Option.some_bind]
    rw [importAll_kvList dkv hkv_nt]
    simp only [Option.some_bind]
    rw [show (List.foldl (fun m p => sSet strLt p.1 p.2 m) [] dkv) = [] ++ dkv from
      foldl_sSet_rebuild strictOrd_strLt dkv [] (by simpa using hkv_s)]
    rw [importAll_expList dexp hexp_shape]
    simp only [Option.some_bind]
    rw [show (List.foldl (fun m p => sSet ExpireKey.blt p.1 p.2 m) [] dexp) = [] ++ dexp from
      foldl_sSet_rebuild strictOrd_ekBlt dexp [] (by simpa using hexp_s)]
    have hg : List.foldl (fun g p => max g p.2.internal_seq)
        (List.foldl (fun g p => max g p.2.internal_seq) 0 dkv) dexp ≤ dseq := by
      refine foldl_max_le _ _ dexp _ ?_ hexp_le
      exact foldl_max_le _ _ dkv 0 (Nat.zero_le _) hkv_le
    simp only [Importer.commit, List.nil_append]
    rw [if_pos]
    simpa [LevelData.curr_seq] using hg

/-- Witness for C3: the concrete compacted state with a node, two keys and
one expiration record round-trips exactly. -/
theorem export_import_round_trip_witness :
    importCommit dExport.export = some dExport :=
  export_import_round_trip dExport
    (by
      refine ⟨?_, ?_, ?_, ?_, ?_⟩ <;> decide)

/-! ### C2: the expiration sweep -/

theorem takeWhile_eq_filter_of_sorted {A : Type} (p : A → Bool) (R : A → A → Prop)
    (hmono : ∀ a b, R a b → p b = true → p a = true) :
    ∀ l, List.Pairwise R l → l.takeWhile p = l.filter p := by
  intro l
  induction l with
  | nil => intro _; rfl
  | cons x xs ih =>
    intro hp
    rw [List.pairwise_cons] at hp
    obtain ⟨hhead, htail⟩ := hp
    by_cases hx : p x = true
    · simp only [List.takeWhile_cons, List.filter_cons, hx, ite_true, if_pos]
      rw [ih htail]
    · have hnone : ∀ y ∈ xs, ¬p y = true :=
        fun y hy hpy => hx (hmono x y (hhead y hy) hpy)
      have hxf : p x = false := by simpa using hx
      simp only [List.takeWhile_cons, List.filter_cons, hxf, Bool.false_eq_true,
        if_false, ite_false]
      exact (List.filter_eq_nil_iff.2 hnone).symm

theorem list_expire_index_sorted (sm : SMV003)
    (h : List.Pairwise (fun a b => ExpireKey.blt a.1 b.1 = true) sm.level.expire) :
    List.Pairwise (fun a b => ExpireKey.blt a.1 b.1 = true)
      sm.list_expire_index := by
  unfold SMV003.list_expire_index
  rw [List.pairwise_filterMap]
  refine List.Pairwise.imp ?_ (h.filter _)
  intro a b hab x hx y hy
  cases ha : a.2.unpack with
  | none => rw [ha] at hx; cases hx
  | some vm =>
    rw [ha] at hx
    cases hb : b.2.unpack with
    | none => rw [hb] at hy; cases hy
    | some vm2 =>
      rw [hb] at hy
      simp only [Option.map_some', Option.mem_def, Option.some.injEq] at hx hy
      rw [← hx, ← hy]
      exact hab

theorem mem_list_expire_index {sm : SMV003} {e : ExpireKey × Str}
    (h : e ∈ sm.list_expire_index) :
    ∃ s m, (e.1, Marked.normal s e.2 m) ∈ sm.level.expire ∧
      ExpireKey.ble sm.expire_cursor e.1 = true := by
  unfold SMV003.list_expire_index at h
  obtain ⟨q, hq, hfq⟩ := List.mem_filterMap.1 h
  have hqmem := List.mem_filter.1 hq
  cases hu : q.2 with
  | tombStone s =>
    rw [hu] at hfq
    cases hfq
  | normal s v m =>
    rw [hu] at hfq
    simp only [Marked.unpack, Option.map_some', Option.some.injEq] at hfq
    refine ⟨s, m, ?_, ?_⟩
    · have : (q.1, Marked.normal s v m) = (q.1, q.2) := by rw [hu]
      rw [← hfq]
      simp only
      have hq2 : (q.1, q.2) ∈ sm.level.expire := by
        have : q = (q.1, q.2) := rfl
        rw [← this]
        exact hqmem.1
      rw [show (Marked.normal s v m : Marked Str) = q.2 from hu.symm]
      exact hq2
    · rw [← hfq]
      exact hqmem.2

theorem wf_lookup {sm : SMV003} (hwf : sm.wf) {e : ExpireKey × Str}
    (he : e ∈ sm.list_expire_index) :
    ∃ v mm, sm.get_kv e.2 = some ⟨e.1.seq, some mm, v⟩ ∧
      mm.expire_at_ms = some e.1.time_ms := by
  obtain ⟨s, m, hmem, _⟩ := mem_list_expire_index he
  have hok := hwf.2.2.2 (e.1, Marked.normal s e.2 m) hmem
  unfold LevelData.expEntryOk at hok
  simp only at hok
  cases hg : sm.level.kvGet e.2 with
  | tombStone s2 =>
    rw [hg] at hok
    cases hok
  | normal s2 v mo =>
    rw [hg] at hok
    cases mo with
    | none => cases hok
    | some mm =>
      simp only [Bool.and_eq_true, decide_eq_true_eq] at hok
      refine ⟨v, mm, ?_, hok.2⟩
      unfold SMV003.get_kv
      rw [hg, hok.1]
      rfl

theorem upsert_delete_primary (sm : SMV003) (k : Str) :
    sm.upsert_kv_primary_index (UpsertKV.deleteReq k) =
      ({ sm with level :=
          { sys := { sm.level.sys with seq := sm.level.sys.seq + 1 },
            kv := sSet strLt k (Marked.tombStone (sm.level.sys.seq + 1)) sm.level.kv,
            expire := sm.level.expire } },
        sm.level.kvGet k, Marked.tombStone (sm.level.sys.seq + 1)) := by
  unfold SMV003.upsert_kv_primary_index UpsertKV.deleteReq LevelData.kvSet
    UpsertKV.get_expire_at_ms
  simp [MatchSeq.match_seq]

theorem upsert_delete_get_self (sm : SMV003) (k : Str) :
    ((sm.upsert_kv (UpsertKV.deleteReq k)).1).get_kv k = none := by
  unfold SMV003.upsert_kv
  rw [upsert_delete_primary]
  simp only [SMV003.get_kv, LevelData.kvGet, update_expire_index_kv]
  rw [sGet_sSet_self]
  rfl

theorem upsert_delete_get_other (sm : SMV003) (k j : Str) (hne : ¬ j = k) :
    ((sm.upsert_kv (UpsertKV.deleteReq k)).1).get_kv j = sm.get_kv j := by
  unfold SMV003.upsert_kv
  rw [upsert_delete_primary]
  simp only [SMV003.get_kv, LevelData.kvGet, update_expire_index_kv]
  rw [sGet_sSet_ne strLt hne]

theorem upsert_delete_cursor (sm : SMV003) (k : Str) :
    (sm.upsert_kv (UpsertKV.deleteReq k)).1.expire_cursor = sm.expire_cursor := by
  unfold SMV003.upsert_kv
  rw [upsert_delete_primary]
  simp only [update_expire_index_cursor]

theorem cleanGo_spec :
    ∀ (items : List (ExpireKey × Str)) (a : Applier),
      (∀ e ∈ items, ∃ sv, a.sm.get_kv e.2 = some sv ∧ sv.seq = e.1.seq) →
      List.Pairwise (fun x y => ¬ x.2 = y.2) items →
      ∃ a', Applier.cleanGo a items = some a' ∧
        a'.changes = a.changes ++ items.map (fun e => ⟨e.2, a.sm.get_kv e.2, none⟩) ∧
        (∀ e ∈ items, a'.sm.get_kv e.2 = none) ∧
        (∀ k, (∀ e ∈ items, ¬ e.2 = k) → a'.sm.get_kv k = a.sm.get_kv k) ∧
        a'.sm.expire_cursor = a.sm.expire_cursor := by
  intro items
  induction items with
  | nil =>
    intro a _ _
    exact ⟨a, rfl, by simp, by simp, fun k _ => rfl, rfl⟩
  | cons e t ih =>
    intro a hlook hdist
    obtain ⟨ek, key⟩ := e
    obtain ⟨sv, hsv, hseq⟩ := hlook (ek, key) (List.mem_cons_self _ t)
    rw [List.pairwise_cons] at hdist
    obtain ⟨hhead0, htail⟩ := hdist
    have hhead : ∀ q ∈ t, ¬ q.2 = key :=
      fun q hq he => hhead0 q hq he.symm
    have hsm2 : ∀ j, ¬ j = key →
        ((a.sm.upsert_kv (UpsertKV.deleteReq key)).1).get_kv j = a.sm.get_kv j :=
      fun j hj => upsert_delete_get_other a.sm key j hj
    set a2 : Applier :=
      { sm := (a.sm.upsert_kv (UpsertKV.deleteReq key)).1,
        changes := a.changes ++ [⟨key, some sv, none⟩] } with ha2
    have hlook2 : ∀ q ∈ t, ∃ sv2, a2.sm.get_kv q.2 = some sv2 ∧ sv2.seq = q.1.seq := by
      intro q hq
      obtain ⟨sv2, hs2, he2⟩ := hlook q (List.mem_cons_of_mem _ hq)
      have hne : ¬ q.2 = key := hhead q hq
      exact ⟨sv2, by rw [ha2]; rw [hsm2 q.2 hne]; exact hs2, he2⟩
    obtain ⟨a', hgo, hch, hdel, hpres, hcur⟩ := ih a2 hlook2 htail
    refine ⟨a', ?_, ?_, ?_, ?_, ?_⟩
    · simp only [Applier.cleanGo, hsv]
      rw [if_pos hseq.symm]
      have hpush : Applier.push_change
          { a with sm := (a.sm.upsert_kv (UpsertKV.deleteReq key)).1 }
          key (some sv) none = a2 := by
        unfold Applier.push_change
        rw [if_neg (by simp)]
      rw [hpush]
      exact hgo
    · rw [hch, ha2]
      simp only [List.map_cons, hsv]
      rw [List.append_assoc]
      congr 1
      · rw [List.singleton_append]
        congr 1
        refine List.map_congr_left ?_
        intro q hq
        have hne : ¬ q.2 = key := hhead q hq
        rw [hsm2 q.2 hne]
    · intro q hq
      rcases List.mem_cons.1 hq with hq1 | hq1
      · rw [hq1]
        have : a'.sm.get_kv key = a2.sm.get_kv key := by
          refine hpres key ?_
          intro q2 hq2
          exact hhead q2 hq2
        rw [this, ha2]
        exact upsert_delete_get_self a.sm key
      · exact hdel q hq1
    · intro k hk
      have h1 : a'.sm.get_kv k = a2.sm.get_kv k :=
        hpres k (fun q hq => hk q (List.mem_cons_of_mem _ hq))
      have h2 : ¬ k = key := by
        intro he
        exact hk (ek, key) (List.mem_cons_self _ t) he.symm
      rw [h1, ha2, hsm2 k h2]
    · rw [hcur, ha2]
      exact upsert_delete_cursor a.sm key

theorem update_expire_cursor_get (sm : SMV003) (t : Nat) (k : Str) :
    (sm.update_expire_cursor t).get_kv k = sm.get_kv k := by
  unfold SMV003.update_expire_cursor
  split <;> rfl

theorem update_expire_cursor_changesless (sm : SMV003) (t : Nat) :
    (sm.update_expire_cursor t).expire_cursor =
      (if t < sm.expire_cursor.time_ms then sm.expire_cursor else ⟨t, 0⟩) := by
  unfold SMV003.update_expire_cursor
  split <;> rfl

/-- C2: applying the sweep for a nonzero log time deletes exactly the
live expiration-index records from the cursor whose time is within the
log time (the scan stopping at the first non-expired record covers all of
them, by sortedness), emits one change event per deleted key in scan
order, never fails its seq assertion on a well-formed state, leaves other
keys untouched, and advances the cursor to (log_time, 0) unless that
would move it backwards; the cursor never moves backwards.  In
Applier::apply this sweep runs before the entry's payload is applied. -/
theorem clean_expired_kvs_spec (sm : SMV003) (cs : List Change) (t : Nat)
    (hwf : sm.wf) (ht : ¬ t = 0) (hcur0 : sm.expire_cursor.seq = 0) :
    (sm.list_expire_index.takeWhile (fun e => e.1.is_expired t) =
      sm.list_expire_index.filter (fun e => e.1.is_expired t)) ∧
    ∃ a', Applier.clean_expired_kvs ⟨sm, cs⟩ t = some a' ∧
      a'.changes = cs ++
        (sm.list_expire_index.filter (fun e => e.1.is_expired t)).map
          (fun e => ⟨e.2, sm.get_kv e.2, none⟩) ∧
      (∀ e ∈ sm.list_expire_index.filter (fun e => e.1.is_expired t),
        a'.sm.get_kv e.2 = none) ∧
      (∀ k, (∀ e ∈ sm.list_expire_index.filter (fun e => e.1.is_expired t),
          ¬ e.2 = k) →
        a'.sm.get_kv k = sm.get_kv k) ∧
      a'.sm.expire_cursor =
        (if t < sm.expire_cursor.time_ms then sm.expire_cursor else ⟨t, 0⟩) ∧
      ExpireKey.ble sm.expire_cursor a'.sm.expire_cursor = true := by
  have hsorted := list_expire_index_sorted sm hwf.2.1
  have htf : sm.list_expire_index.takeWhile (fun e => e.1.is_expired t) =
      sm.list_expire_index.filter (fun e => e.1.is_expired t) := by
    refine takeWhile_eq_filter_of_sorted _ _ ?_ _ hsorted
    intro a b hab hpb
    simp only [ExpireKey.is_expired, decide_eq_true_eq] at hpb ⊢
    simp only [ExpireKey.blt, decide_eq_true_eq] at hab
    omega
  have hsub : ∀ e ∈ sm.list_expire_index.filter (fun e => e.1.is_expired t),
      e ∈ sm.list_expire_index := fun e he => (List.mem_filter.1 he).1
  have hlookup : ∀ e ∈ sm.list_expire_index.filter (fun e => e.1.is_expired t),
      ∃ v mm, sm.get_kv e.2 = some ⟨e.1.seq, some mm, v⟩ ∧
        mm.expire_at_ms = some e.1.time_ms :=
    fun e he => wf_lookup hwf (hsub e he)
  have hlook : ∀ e ∈ sm.list_expire_index.filter (fun e => e.1.is_expired t),
      ∃ sv, sm.get_kv e.2 = some sv ∧ sv.seq = e.1.seq := by
    intro e he
    obtain ⟨v, mm, hg, _⟩ := hlookup e he
    exact ⟨_, hg, rfl⟩
  have hdist : List.Pairwise (fun x y => ¬ x.2 = y.2)
      (sm.list_expire_index.filter (fun e => e.1.is_expired t)) := by
    have hpair := hsorted.filter (fun e => e.1.is_expired t)
    refine List.Pairwise.imp_of_mem ?_ hpair
    intro a b ha hb hab he
    obtain ⟨v1, m1, hg1, hm1⟩ := hlookup a ha
    obtain ⟨v2, m2, hg2, hm2⟩ := hlookup b hb
    rw [he] at hg1
    have heq := hg1.symm.trans hg2
    simp only [Option.some.injEq, SeqV.mk.injEq] at heq
    obtain ⟨hseq, hmeta, _⟩ := heq
    have hm12 : m1 = m2 := by
      cases hmeta
      rfl
    rw [hm12, hm2] at hm1
    have htime : a.1.time_ms = b.1.time_ms := by
      have := Option.some.inj hm1
      omega
    have hek : a.1 = b.1 := by
      have hmk : (⟨a.1.time_ms, a.1.seq⟩ : ExpireKey) = ⟨b.1.time_ms, b.1.seq⟩ := by
        rw [htime, hseq]
      exact hmk
    rw [hek] at hab
    rw [strictOrd_ekBlt.1 b.1] at hab
    cases hab
  obtain ⟨a', hgo, hch, hdel, hpres, hcurp⟩ :=
    cleanGo_spec (sm.list_expire_index.filter (fun e => e.1.is_expired t))
      ⟨sm, cs⟩ hlook hdist
  have hclean : Applier.clean_expired_kvs ⟨sm, cs⟩ t =
      some { a' with sm := a'.sm.update_expire_cursor t } := by
    unfold Applier.clean_expired_kvs
    rw [if_neg ht]
    show ((Applier.cleanGo ⟨sm, cs⟩
        (sm.list_expire_index.takeWhile (fun e => e.1.is_expired t))).map
        (fun a2 => { a2 with sm := a2.sm.update_expire_cursor t })) = _
    rw [htf, hgo]
    rfl
  refine ⟨htf, { a' with sm := a'.sm.update_expire_cursor t }, hclean, ?_, ?_, ?_, ?_, ?_⟩
  · simpa using hch
  · intro e he
    show (a'.sm.update_expire_cursor t).get_kv e.2 = none
    rw [update_expire_cursor_get]
    exact hdel e he
  · intro k hk
    show (a'.sm.update_expire_cursor t).get_kv k = sm.get_kv k
    rw [update_expire_cursor_get]
    exact hpres k hk
  · show (a'.sm.update_expire_cursor t).expire_cursor = _
    rw [update_expire_cursor_changesless]
    rw [show a'.sm.expire_cursor = sm.expire_cursor from hcurp]
  · show ExpireKey.ble sm.expire_cursor
      (a'.sm.update_expire_cursor t).expire_cursor = true
    rw [update_expire_cursor_changesless,
      show a'.sm.expire_cursor = sm.expire_cursor from hcurp]
    by_cases hlt : t < sm.expire_cursor.time_ms
    · rw [if_pos hlt]
      simp only [ExpireKey.ble, strictOrd_ekBlt.1 sm.expire_cursor]
      rfl
    · rw [if_neg hlt]
      simp only [ExpireKey.ble, ExpireKey.blt]
      have hT : sm.expire_cursor.time_ms ≤ t := by omega
      simp only [Bool.not_eq_true']
      rw [decide_eq_false]
      intro hcon
      rcases hcon with hcon | hcon
      · omega
      · rw [hcur0] at hcon
        omega

/-- Witness for C2: the sweep at log time 6000 succeeds on the concrete
state holding one record expiring at 5000. -/
theorem clean_expired_kvs_spec_witness :
    (Applier.clean_expired_kvs ⟨smExp, []⟩ 6000).isSome = true := by
  obtain ⟨-, a', hgo, -⟩ :=
    clean_expired_kvs_spec smExp [] 6000
      ⟨by decide, by decide, by decide, by decide⟩ (by decide) (by decide)
  rw [hgo]
  rfl

end MetaSM
